import Mathlib

/-!
go-dump: chunk planner, chunk plans, row encoder, worker, sink and options.

A shallow embedding of the parts of `go/utils` that the dump pipeline
consists of (`utils.go`, `table.go`, `datachunk.go`, `task.go`,
`taskmanager.go`, `buffer.go`, and `parseWhereCondition` of the two
`test_where` files), followed by the properties proved about them.

Conventions of the embedding

* Go `[]byte` is `List UInt8`; Go `string` holding SQL text or an identifier
  is a Lean `String`, turned into bytes by `strBytes` when it is written to a
  sink.
* Go `int64` is `Int`, with `wrapInt64` applied where the source adds;
  the `uint64` counter of a task is a `Nat` under `wrapUint64`.
* A pointer receiver that is mutated becomes explicit state passing.
* `log.Fatalf` and `panic` end a run: they are outcomes of the model.
* What the code does to the database, the files and the prepared statements
  is recorded as a list of events, in order; whether such a step succeeds is
  an input of the model.
-/

namespace GoDump

/-! ## Bytes and text -/

/-- UTF-8 bytes of a text, the bytes Go writes for a `string`. -/
def strBytes (s : String) : List UInt8 := s.data.flatMap String.utf8EncodeChar

/-! ## utils.go: ParseString -/

/-- One iteration of the `for _, b := range s.([]byte)` loop of `ParseString`:
the state is the pair of the locals `escape` and `rets`. -/
def ParseString.step (st : Bool × List UInt8) (b : UInt8) : Bool × List UInt8 :=
  let escape := st.1
  let rets := st.2
  -- switch b { ... }
  let sw : UInt8 × Bool :=
    if b = 39 then (b, true)            -- case byte('\'')
    else if b = 92 then (b, true)       -- case byte('\\')
    else if b = 34 then (b, true)       -- case byte('"')
    else if b = 10 then (110, true)     -- case byte('\n'): b = byte('n')
    else if b = 13 then (114, true)     -- case byte('\r'): b = byte('r')
    else (b, escape)
  if sw.2 then (false, rets ++ [92, sw.1]) else (sw.2, rets ++ [sw.1])

/-- The function `ParseString` of `utils.go`, on a value that is a `[]byte`. -/
def ParseString (s : List UInt8) : List UInt8 :=
  (s.foldl ParseString.step (false, [])).2

/-- The per-byte image the specification gives for string escaping: quote,
backslash and double quote get a backslash in front, LF becomes backslash `n`,
CR becomes backslash `r`, every other byte is itself. -/
def escapeImage (b : UInt8) : List UInt8 :=
  if b = 39 ∨ b = 92 ∨ b = 34 then [92, b]
  else if b = 10 then [92, 110]
  else if b = 13 then [92, 114]
  else [b]

/-- The byte a backslash escape `\c` stands for inside a single-quoted MySQL
literal under the default SQL mode. -/
def mysqlEscaped (c : UInt8) : UInt8 :=
  if c = 110 then 10          -- \n
  else if c = 114 then 13     -- \r
  else if c = 48 then 0       -- \0
  else if c = 98 then 8       -- \b
  else if c = 116 then 9      -- \t
  else if c = 90 then 26      -- \Z
  else c                      -- \' \" \\ and every other byte: the byte itself

/-- The decoder of the body of a single-quoted MySQL literal under the default
SQL mode: `some out` when the whole input is consumed, `none` when an
unescaped quote (which would end the literal) or a lone trailing backslash
is met. -/
def mysqlDecode : List UInt8 → Option (List UInt8)
  | [] => some []
  | b :: rest =>
    if b = 39 then none
    else if b = 92 then
      match rest with
      | [] => none
      | c :: rest2 => (mysqlDecode rest2).map (fun out => mysqlEscaped c :: out)
    else (mysqlDecode rest).map (fun out => b :: out)

/-! ## Machine integers -/

/-- Two's-complement wrap-around of Go `int64` arithmetic. -/
def wrapInt64 (x : Int) : Int := (x + 2 ^ 63) % 2 ^ 64 - 2 ^ 63

/-- Wrap-around of Go `uint64` arithmetic. -/
def wrapUint64 (x : Nat) : Nat := x % 2 ^ 64

/-! ## table.go -/

/-- The fields of `Table` that the planner and the chunk plans read. -/
structure Table where
  name : String
  schema : String
  primaryKey : List String
  uniqueKey : List String
  keyForChunks : String
  CreateTableSQL : String := ""
  deriving DecidableEq, Repr

/-- Method `Table.GetFullName`: database and table name escaped. -/
def Table.GetFullName (t : Table) : String :=
  "`" ++ t.schema ++ "`.`" ++ t.name ++ "`"

/-- Method `Table.GetName`: the table name escaped. -/
def Table.GetName (t : Table) : String := "`" ++ t.name ++ "`"

/-- Method `Table.GetPrimaryOrUniqueKey`: the returned key together with the descriptor
after the call (the method memoizes its answer in `keyForChunks`). -/
def Table.GetPrimaryOrUniqueKey (t : Table) : String × Table :=
  if t.keyForChunks ≠ "" then (t.keyForChunks, t)          -- len(t.keyForChunks) > 0
  else
    match t.primaryKey with
    | [k] => (k, { t with keyForChunks := k })             -- len(t.primaryKey) == 1
    | _ =>
      match t.uniqueKey with
      | k :: _ => (k, { t with keyForChunks := k })        -- len(t.uniqueKey) > 0
      | [] => ("", t)

/-! ## datachunk.go: chunk plans -/

/-- A chunk plan. The back-reference `Task *Task` is only followed to reach
`Task.Table`, which the plan carries here directly. -/
structure DataChunk where
  Min : Int
  Max : Int
  Sequence : Nat
  Table : Table
  IsSingleChunk : Bool
  IsLastChunk : Bool
  deriving DecidableEq, Repr

/-- Method `DataChunk.GetWhereSQL`: the WHERE clause of the plan, with `?` for
the bounds. -/
def DataChunk.GetWhereSQL (dc : DataChunk) : String × DataChunk :=
  if dc.IsSingleChunk then ("", dc)
  else
    let r := dc.Table.GetPrimaryOrUniqueKey
    if dc.IsLastChunk then (" WHERE " ++ r.1 ++ " >= ?", { dc with Table := r.2 })
    else (" WHERE " ++ r.1 ++ " BETWEEN ? AND ?", { dc with Table := r.2 })

/-- Method `DataChunk.GetOrderBYSQL`: the ORDER BY clause of the plan. -/
def DataChunk.GetOrderBYSQL (dc : DataChunk) : String × DataChunk :=
  if dc.IsSingleChunk then ("", dc)
  else
    let r := dc.Table.GetPrimaryOrUniqueKey
    (" ORDER BY " ++ r.1, { dc with Table := r.2 })

/-- Method `DataChunk.GetPrepareSQL`: the arguments of `Sprintf` are evaluated left to
right, each on the descriptor the previous call left. -/
def DataChunk.GetPrepareSQL (dc : DataChunk) : String × DataChunk :=
  let full := dc.Table.GetFullName
  let w := dc.GetWhereSQL
  let o := w.2.GetOrderBYSQL
  ("SELECT /*!40001 SQL_NO_CACHE */ * FROM " ++ full ++ w.1 ++ o.1, o.2)

/-- The arguments `DataChunk.Parse` passes to `stmt.Query`: none for a single
plan, `dc.Min` for a tail plan, `dc.Min, dc.Max` for a range plan. -/
def DataChunk.queryArgs (dc : DataChunk) : List Int :=
  if dc.IsSingleChunk then []
  else if dc.IsLastChunk then [dc.Min]
  else [dc.Min, dc.Max]

/-- The rows the chunk's statement selects, by chunk key: the meaning of the
text of `GetWhereSQL` with the arguments of `queryArgs` bound to it. -/
def DataChunk.selects (dc : DataChunk) (k : Int) : Bool :=
  if dc.IsSingleChunk then true
  else if dc.IsLastChunk then decide (dc.Min ≤ k)
  else decide (dc.Min ≤ k) && decide (k ≤ dc.Max)

/-- A value of a scanned row, by the dynamic type the driver reports. The text
that `fmt` prints for a `time.Time` (`%s`) and for a `float64` (`%g`) is
library behaviour and is carried by the value; a value of any other type
carries the bytes it consists of. -/
inductive Value where
  | bytes (b : List UInt8)
  | int64 (i : Int)
  | null
  | time (text : String)
  | float64 (text : String)
  | other (raw : List UInt8)
  deriving DecidableEq, Repr

/-- How a call of `Parse` ends. -/
inductive ParseEnd where
  | returned
  | fatal
  | panicked
  deriving DecidableEq, Repr

/-- The `switch d.(type)` of `Parse` for one value: the bytes written to the
sink, or `none` when the type assertion `d.([]byte)` of the default case
panics (the value is not a `[]byte`, or the first case had taken it). -/
def writeValue (buffer : List UInt8) (d : Value) : Option (List UInt8) :=
  match d with
  | .bytes b => some (buffer ++ strBytes "'" ++ ParseString b ++ strBytes "'")
  | .int64 i => some (buffer ++ strBytes (toString i))
  | .null => some (buffer ++ strBytes "NULL")
  | .time text => some (buffer ++ strBytes text)
  | .float64 text => some (buffer ++ strBytes text)
  | .other _ => none

/-- The loop `for i, d := range data` of `Parse`, from index `i` on; `max` is
`len(data)`. -/
def writeValues (max : Nat) : Nat → List Value → List UInt8 → List UInt8 × ParseEnd
  | _, [], buffer => (buffer, .returned)
  | i, d :: ds, buffer =>
    match writeValue buffer d with
    | none => (buffer, .panicked)
    | some buffer1 =>
      let buffer2 := if (i : Int) ≠ (max : Int) - 1 then buffer1 ++ strBytes "," else buffer1
      writeValues max (i + 1) ds buffer2

/-- The loop `for rows.Next()` of `Parse`; a row is the outcome of `rows.Scan`
(`none` for a scan error, on which the source panics). -/
def writeRows (tbl : Table) :
    List (Option (List Value)) → Bool → List UInt8 → List UInt8 × ParseEnd
  | [], _, buffer => (buffer, .returned)
  | row :: rows, firstRow, buffer =>
    let buffer1 :=
      if firstRow then buffer ++ strBytes ("INSERT INTO " ++ tbl.GetName ++ " VALUES \n(")
      else buffer
    match row with
    | none => (buffer1, .panicked)
    | some data =>
      let buffer2 := if !firstRow then buffer1 ++ strBytes "),\n(" else buffer1
      match writeValues data.length 0 data buffer2 with
      | (buffer3, .returned) => writeRows tbl rows false buffer3
      | r => r

/-- The comment line `Parse` writes before the rows. -/
def DataChunk.comment (dc : DataChunk) : String :=
  if dc.IsSingleChunk then "-- Single chunk on " ++ dc.Table.GetFullName ++ "\n"
  else "-- Chunk " ++ toString dc.Sequence ++ " - from " ++ toString dc.Min ++ " to "
    ++ toString dc.Max ++ "\n"

/-- Method `DataChunk.Parse`: `stmt` answers `stmt.Query(args...)` with an error or
with the stream of scanned rows; the result is the sink after the call and
how the call ended. -/
def DataChunk.Parse (dc : DataChunk)
    (stmt : List Int → Option (List (Option (List Value))))
    (buffer : List UInt8) : List UInt8 × ParseEnd :=
  match stmt dc.queryArgs with
  | none => (buffer, .fatal)                                  -- log.Fatalf
  | some rows =>
    let buffer1 := buffer ++ strBytes dc.comment
    match writeRows dc.Table rows true buffer1 with
    | (buffer2, .returned) => (buffer2 ++ strBytes ");\n", .returned)
    | r => r

/-! ## task.go: the planner -/

/-- Outcome of `QueryRow(q).Scan(&dst)`: a value stored in `dst`, the error
`sql.ErrNoRows`, or any other error (`dst` is left as it was). -/
inductive ScanResult where
  | ok (v : Int)
  | errNoRows
  | errOther
  deriving DecidableEq, Repr

/-- The three probes the planner sends. -/
inductive PlannerQuery where
  | singleChunkTest
  | chunk (lo : Int) (offset : Nat)
  | lastChunk (lo : Int)
  deriving DecidableEq, Repr

/-- The SQL text of a probe on table `tbl`. -/
def PlannerQuery.sql (tbl : Table) : PlannerQuery → String
  | .singleChunkTest => "SELECT 1 FROM " ++ tbl.GetFullName ++ " LIMIT 1 "
  | .chunk lo offset =>
    "SELECT " ++ tbl.GetPrimaryOrUniqueKey.1 ++ " FROM " ++ tbl.GetFullName ++ " WHERE "
      ++ tbl.GetPrimaryOrUniqueKey.1 ++ " >= " ++ toString lo ++ " LIMIT 1 OFFSET "
      ++ toString offset
  | .lastChunk lo =>
    "SELECT " ++ tbl.GetPrimaryOrUniqueKey.1 ++ " FROM " ++ tbl.GetFullName ++ " WHERE "
      ++ tbl.GetPrimaryOrUniqueKey.1 ++ " >= " ++ toString lo ++ " LIMIT 1"

/-- The database as the planner sees it: an answer to each probe. -/
abbrev DB := PlannerQuery → ScanResult

/-- The fields of `TaskManager` the planner touches; `ChunksChannel` is the
sequence of plans sent on the channel, in emission order. -/
structure TaskManager where
  TablesWithoutPKOption : String
  ChunksChannel : List DataChunk
  TotalChunks : Int
  Queue : Int
  SkipUseDatabase : Bool := false
  GetMasterStatus : Bool := false
  GetSlaveStatus : Bool := false
  DestinationDir : String := ""
  Compress : Bool := false
  CompressLevel : Int := 1
  deriving DecidableEq, Repr

/-- The planner state of one table. -/
structure Task where
  Table : Table
  ChunkSize : Nat
  TaskManager : TaskManager
  TotalChunks : Nat
  chunkMin : Int
  chunkMax : Int
  deriving DecidableEq, Repr

/-- Method `TaskManager.AddChunk`: send the plan on the channel. -/
def TaskManager.AddChunk (tm : TaskManager) (chunk : DataChunk) : TaskManager :=
  { tm with ChunksChannel := tm.ChunksChannel ++ [chunk] }

/-- Method `Task.AddChunk`: send the plan, count it (task and manager counters,
queue depth) and move the cursor `chunkMin` past `chunkMax`. -/
def Task.AddChunk (t : Task) (chunk : DataChunk) : Task :=
  let tm1 := t.TaskManager.AddChunk chunk
  let tm2 := { tm1 with TotalChunks := wrapInt64 (tm1.TotalChunks + 1) }
  let tm3 := { tm2 with Queue := wrapInt64 (tm2.Queue + 1) }
  { t with
    TaskManager := tm3
    TotalChunks := wrapUint64 (t.TotalChunks + 1)
    chunkMin := wrapInt64 (t.chunkMax + 1) }

/-- Method `Task.GetSingleChunkTestQuery`: the probe `SELECT 1 FROM t LIMIT 1`. -/
def Task.GetSingleChunkTestQuery (_t : Task) : PlannerQuery := .singleChunkTest

/-- Method `Task.GetChunkSqlQuery`: the boundary probe
`SELECT k FROM t WHERE k >= chunkMax LIMIT 1 OFFSET ChunkSize`. -/
def Task.GetChunkSqlQuery (t : Task) : PlannerQuery := .chunk t.chunkMax t.ChunkSize

/-- Method `Task.GetLastChunkSqlQuery`: the tail probe
`SELECT k FROM t WHERE k >= chunkMin LIMIT 1`. -/
def Task.GetLastChunkSqlQuery (t : Task) : PlannerQuery := .lastChunk t.chunkMin

/-- Constructor `NewSingleDataChunk` (`Min`, `Max` and `IsLastChunk` keep their
zero values). -/
def NewSingleDataChunk (task : Task) : DataChunk :=
  { Min := 0, Max := 0, Sequence := 1, Table := task.Table,
    IsSingleChunk := true, IsLastChunk := false }

/-- Constructor `NewDataChunk`. -/
def NewDataChunk (task : Task) : DataChunk :=
  { Min := task.chunkMin, Max := task.chunkMax, Sequence := task.TotalChunks,
    Table := task.Table, IsSingleChunk := false, IsLastChunk := false }

/-- Constructor `NewDataLastChunk` (`Max` keeps its zero value). -/
def NewDataLastChunk (task : Task) : DataChunk :=
  { Min := task.chunkMin, Max := 0, Sequence := task.TotalChunks,
    Table := task.Table, IsSingleChunk := false, IsLastChunk := true }

/-- The locals `chunkMax`, `chunkMin` and `stopLoop` of `CreateChunks`. -/
structure Locals where
  chunkMax : Int
  chunkMin : Int
  stopLoop : Bool
  deriving DecidableEq, Repr

/-- How a run of the planner ends. -/
inductive Run (α : Type) where
  | done (a : α)
  | fatal
  | outOfFuel
  deriving DecidableEq, Repr

/-- The body of the loop `for !stopLoop` of `CreateChunks`. -/
def Task.loopBody (db : DB) (t : Task) (l : Locals) : Task × Locals :=
  match db t.GetChunkSqlQuery with
  | .errNoRows =>
    match db t.GetLastChunkSqlQuery with
    | .ok v => (t.AddChunk (NewDataLastChunk t), { l with chunkMin := v, stopLoop := true })
    | _ => (t, { l with stopLoop := true })
  | .ok v =>
    let l1 := { l with chunkMax := v }
    let t1 := { t with chunkMax := l1.chunkMax }
    (t1.AddChunk (NewDataChunk t1), l1)
  | .errOther =>
    let t1 := { t with chunkMax := l.chunkMax }
    (t1.AddChunk (NewDataChunk t1), l)

/-- The loop `for !stopLoop` of `CreateChunks`; `fuel` bounds the number of
iterations, and `none` means the bound was reached with the loop still
running. -/
def Task.loop (db : DB) : Nat → Task → Locals → Option Task
  | fuel, t, l =>
    if l.stopLoop then some t
    else
      match fuel with
      | 0 => none
      | fuel1 + 1 =>
        let r := t.loopBody db l
        Task.loop db fuel1 r.1 r.2

/-- Method `Task.CreateChunks`; `fuel` bounds the iterations of its loop. -/
def Task.CreateChunks (db : DB) (fuel : Nat) (t : Task) : Run Task :=
  let t1 := { t with TotalChunks := 0, chunkMax := 0, chunkMin := 0 }
  let l : Locals := { chunkMax := 0, chunkMin := 0, stopLoop := false }
  let key := t1.Table.GetPrimaryOrUniqueKey
  let t2 := { t1 with Table := key.2 }
  let ranged : Run Task :=
    match Task.loop db fuel t2 l with
    | some t3 => .done t3
    | none => .outOfFuel
  if key.1 = "" then                                         -- len(...) == 0
    if t2.TaskManager.TablesWithoutPKOption = "single-chunk" then
      match db t2.GetSingleChunkTestQuery with
      | .ok _ => .done (t2.AddChunk (NewSingleDataChunk t2))
      | .errNoRows => .done t2
      | .errOther => .done t2                                -- log.Errorf; return
    else if t2.TaskManager.TablesWithoutPKOption = "error" then .fatal   -- log.Fatalf
    else ranged
  else ranged

/-- The plans a run of `CreateChunks` sent on the channel, in emission order
(`none` when the run did not return). -/
def Task.emitted (db : DB) (fuel : Nat) (t : Task) : Option (List DataChunk) :=
  match t.CreateChunks db fuel with
  | .done t1 => some (t1.TaskManager.ChunksChannel.drop t.TaskManager.ChunksChannel.length)
  | _ => none

/-! ## The table behind the planner's probes -/

/-- The chunk-key values of the rows with key at least `lo`, in ascending key
order: the order in which the index on the key returns them. -/
def keysFrom (keys : List Int) (lo : Int) : List Int :=
  (keys.insertionSort (· ≤ ·)).filter (fun k => decide (lo ≤ k))

/-- The answer of a table whose rows have the chunk-key values `keys` to the
planner's probes, read in ascending key order and never failing. -/
def tableDB (keys : List Int) : DB
  | .singleChunkTest => if keys = [] then .errNoRows else .ok 1
  | .chunk lo offset =>
    match (keysFrom keys lo)[offset]? with
    | some v => .ok v
    | none => .errNoRows
  | .lastChunk lo =>
    match (keysFrom keys lo).head? with
    | some v => .ok v
    | none => .errNoRows

/-! ## Specification-side vocabulary -/

/-- The lists `xs` joined with the separator `sep` between neighbours. -/
def joinWith (sep : List UInt8) : List (List UInt8) → List UInt8
  | [] => []
  | [x] => x
  | x :: y :: ys => x ++ sep ++ joinWith sep (y :: ys)

/-- A value whose driver-reported type is byte string, int64 or null. -/
def Value.isPlain : Value → Bool
  | .bytes _ => true
  | .int64 _ => true
  | .null => true
  | _ => false

/-- The SQL literal the specification gives for a value: a byte string is
quoted and escaped, an int64 is its decimal form, null is `NULL`; a time and a
float are their printed text and any other value its raw bytes. -/
def Value.literal : Value → List UInt8
  | .bytes b => strBytes "'" ++ ParseString b ++ strBytes "'"
  | .int64 i => strBytes (toString i)
  | .null => strBytes "NULL"
  | .time text => strBytes text
  | .float64 text => strBytes text
  | .other raw => raw

/-- A row as the specification frames it: its literals joined with a comma. -/
def rowLiteral (row : List Value) : List UInt8 :=
  joinWith (strBytes ",") (row.map Value.literal)

/-- The number of `?` placeholders of an SQL text. -/
def placeholders (sql : String) : Nat := sql.data.count '?'

/-- Two plans select no common key. -/
def disjointPlans (a b : DataChunk) : Prop :=
  ∀ k : Int, ¬ (a.selects k = true ∧ b.selects k = true)

/-- The plans `ps` are range plans that tile the keys from `lo` up to, but not
including, `hi`: each starts where the previous one ended plus one and has
`Min ≤ Max`. -/
def contiguous : Int → List DataChunk → Int → Prop
  | lo, [], hi => lo = hi
  | lo, p :: ps, hi =>
    p.IsSingleChunk = false ∧ p.IsLastChunk = false ∧ p.Min = lo ∧ lo ≤ p.Max ∧
      contiguous (p.Max + 1) ps hi

/-- A small task on table `db.t` with primary key `id`, for the examples. -/
def exampleTask (chunkSize : Nat) : Task :=
  { Table := { name := "t", schema := "db", primaryKey := ["id"], uniqueKey := [],
               keyForChunks := "" },
    ChunkSize := chunkSize,
    TaskManager := { TablesWithoutPKOption := "single-chunk", ChunksChannel := [],
                     TotalChunks := 0, Queue := 0 },
    TotalChunks := 0, chunkMin := 0, chunkMax := 0 }

/-- A small task on table `db.t` without any key, for the examples. -/
def exampleTaskNoKey : Task :=
  { Table := { name := "t", schema := "db", primaryKey := [], uniqueKey := [],
               keyForChunks := "" },
    ChunkSize := 10,
    TaskManager := { TablesWithoutPKOption := "single-chunk", ChunksChannel := [],
                     TotalChunks := 0, Queue := 0 },
    TotalChunks := 0, chunkMin := 0, chunkMax := 0 }

/-! ## table.go: populating the descriptor -/

/-- One iteration of the loop `for rows.Next()` of `Table.getData`: `row` is a
scanned `(COLUMN_NAME, COLUMN_KEY)` pair of the key-column query. -/
def Table.getData.step (t : Table) (row : String × String) : Table :=
  if row.2 = "PRI" then { t with primaryKey := t.primaryKey ++ [row.1] }
  else if row.2 = "UNI" then { t with uniqueKey := t.uniqueKey ++ [row.1] }
  else t

/-- Method `Table.getData`: `createSQL` is the text `SHOW CREATE TABLE` returns
and `rows` the rows of the query for the integer-family and timestamp key
columns (`COLUMN_KEY` one of PRI, UNI, MUL). -/
def Table.getData (t : Table) (createSQL : String) (rows : List (String × String)) : Table :=
  rows.foldl Table.getData.step { t with CreateTableSQL := createSQL }

/-- Constructor `NewTable`. -/
def NewTable (schema name : String) (createSQL : String)
    (rows : List (String × String)) : Table :=
  Table.getData
    { name := name, schema := schema, primaryKey := [], uniqueKey := [], keyForChunks := "" }
    createSQL rows

/-! ## task.go: the loop, iteration by iteration -/

/-- The state of the loop of `CreateChunks` after `n` iterations of its body
(the loop condition is not looked at). -/
def Task.loopSteps (db : DB) : Nat → Task × Locals → Task × Locals
  | 0, s => s
  | n + 1, s => Task.loopSteps db n (Task.loopBody db s.1 s.2)

/-- A database that answers the first boundary probe of a table whose fourth
key is 4 (chunk size 3, cursor 0) and fails on every later probe with an
error other than `sql.ErrNoRows`, as after a lost connection. -/
def lostConnectionDB : DB := fun q =>
  if q = PlannerQuery.chunk 0 3 then ScanResult.ok 4 else ScanResult.errOther

/-! ## Library functions of Go used by the option parsers

Texts are handled as lists of characters (`String.data`); on the valid UTF-8
texts of an INI file this is what the byte-wise Go functions compute. -/

/-- Function `unicode.IsSpace`. -/
def isSpace (c : Char) : Bool :=
  c = '\t' || c = '\n' || c.toNat = 0x0B || c.toNat = 0x0C || c = '\r' || c = ' ' ||
  c.toNat = 0x85 || c.toNat = 0xA0 || c.toNat = 0x1680 ||
  (0x2000 ≤ c.toNat && c.toNat ≤ 0x200A) ||
  c.toNat = 0x2028 || c.toNat = 0x2029 || c.toNat = 0x202F || c.toNat = 0x205F ||
  c.toNat = 0x3000

/-- Function `strings.TrimSpace`. -/
def TrimSpace (s : List Char) : List Char :=
  ((s.dropWhile isSpace).reverse.dropWhile isSpace).reverse

/-- Function `strings.Split(s, sep)` for a separator of one character. -/
def splitChar (sep : Char) : List Char → List (List Char)
  | [] => [[]]
  | c :: cs =>
    if c = sep then [] :: splitChar sep cs
    else
      match splitChar sep cs with
      | p :: ps => (c :: p) :: ps
      | [] => [[c]]

/-- Function `strings.SplitN(s, sep, 2)` for a separator of one character: cut
at the first index of `sep`, when there is one. -/
def splitN2 (sep : Char) (s : List Char) : List (List Char) :=
  let m := s.indexOf sep                      -- strings.Index; the length when absent
  if m < s.length then [s.take m, s.drop (m + 1)] else [s]

/-- Function `strconv.ParseBool`. -/
def ParseBool (s : String) : Option Bool :=
  if s = "1" ∨ s = "t" ∨ s = "T" ∨ s = "TRUE" ∨ s = "true" ∨ s = "True" then some true
  else if s = "0" ∨ s = "f" ∨ s = "F" ∨ s = "FALSE" ∨ s = "false" ∨ s = "False" then
    some false
  else none

/-- The value of a non-empty run of decimal digits. -/
def parseDigits (s : List Char) : Option Nat :=
  if s = [] ∨ ¬ s.all Char.isDigit then none
  else some (s.foldl (fun n c => n * 10 + (c.toNat - 48)) 0)

/-- Function `strconv.ParseUint(s, 10, 64)`; `none` stands for its error. -/
def ParseUint (s : String) : Option Nat :=
  match parseDigits s.data with
  | some n => if n < 2 ^ 64 then some n else none
  | none => none

/-- Function `strconv.Atoi` on a 64-bit platform; `none` stands for its error. -/
def Atoi (s : String) : Option Int :=
  match s.data with
  | '-' :: ds =>
    match parseDigits ds with
    | some n => if n ≤ 2 ^ 63 then some (-(n : Int)) else none
    | none => none
  | '+' :: ds =>
    match parseDigits ds with
    | some n => if n < 2 ^ 63 then some (n : Int) else none
    | none => none
  | ds =>
    match parseDigits ds with
    | some n => if n < 2 ^ 63 then some (n : Int) else none
    | none => none

/-! ## utils.go: the options record and the INI parser -/

/-- Record `MySQLHost`. -/
structure MySQLHost where
  HostName : String
  SocketFile : String
  Port : Int

/-- Record `MySQLCredentials`. -/
structure MySQLCredentials where
  User : String
  Password : String

/-- Record `TemporalOptions`. -/
structure TemporalOptions where
  Tables : String
  Databases : String
  IsolationLevel : String
  AllDatabases : Bool
  Debug : Bool
  DryRun : Bool
  Execute : Bool
  Quiet : Bool

/-- Record `DumpOptions`. The map `WhereConditions` is the function that looks a
table up in it (a nil map and an empty map look up alike). -/
structure DumpOptions where
  MySQLHost : MySQLHost
  MySQLCredentials : MySQLCredentials
  Threads : Int
  ChunkSize : Nat
  OutputChunkSize : Nat
  ChannelBufferSize : Int
  LockTables : Bool
  TablesWithoutUKOption : String
  DestinationDir : String
  AddDropTable : Bool
  GetMasterStatus : Bool
  GetSlaveStatus : Bool
  SkipUseDatabase : Bool
  Compress : Bool
  CompressLevel : Int
  IsolationLevel : Int
  Consistent : Bool
  WhereConditions : String → Option String
  GlobalWhereCondition : String
  TemporalOptions : TemporalOptions

/-- Function `GetDumpOptions`: the defaults (`sql.LevelRepeatableRead` is 4). -/
def GetDumpOptions : DumpOptions :=
  { MySQLHost := { HostName := "localhost", SocketFile := "", Port := 3306 },
    MySQLCredentials := { User := "", Password := "" },
    Threads := 1, ChunkSize := 1000, OutputChunkSize := 0, ChannelBufferSize := 1000,
    LockTables := true, TablesWithoutUKOption := "error", DestinationDir := "",
    AddDropTable := false, GetMasterStatus := true, GetSlaveStatus := false,
    SkipUseDatabase := false, Compress := false, CompressLevel := 1, IsolationLevel := 4,
    Consistent := true, WhereConditions := fun _ => none, GlobalWhereCondition := "",
    TemporalOptions := { Tables := "", Databases := "", IsolationLevel := "REPEATABLE READ",
                         AllDatabases := false, Debug := false, DryRun := false,
                         Execute := false, Quiet := false } }

/-- The assignment `m[key] = value` on a map. -/
def mapSet (m : String → Option String) (key value : String) : String → Option String :=
  fun k => if k = key then some value else m k

/-- Function `normalizeTableName`. -/
def normalizeTableName (tableName : String) : String :=
  if '.' ∈ tableName.data then
    match splitChar '.' tableName.data with
    | [a, b] => "`" ++ String.mk a ++ "`.`" ++ String.mk b ++ "`"
    | _ => tableName
  else tableName

/-- One iteration of the loop `for _, part := range parts` of
`parseWhereCondition`. -/
def parseWhereCondition.step (dumpOptions : DumpOptions) (part : List Char) : DumpOptions :=
  match splitN2 ':' (TrimSpace part) with
  | [table, cond] =>                                        -- len(tableCond) == 2
    { dumpOptions with
      WhereConditions := mapSet dumpOptions.WhereConditions (String.mk table) (String.mk cond) }
  | _ => dumpOptions

/-- Function `parseWhereCondition` (of `test_where.go` and
`test_where_test.go`, the same text in both). -/
def parseWhereCondition (whereValue : String) (dumpOptions : DumpOptions) : DumpOptions :=
  if ':' ∈ whereValue.data then                              -- strings.Contains(whereValue, ":")
    (splitChar ',' whereValue.data).foldl parseWhereCondition.step dumpOptions
  else { dumpOptions with GlobalWhereCondition := whereValue }

/-- One iteration of the loop over the parts in the `where` case of
`parseIniOptions`. -/
def parseIniOptions.whereStep (d : DumpOptions) (part : List Char) : DumpOptions :=
  match splitN2 ':' (TrimSpace part) with
  | [table, cond] =>
    { d with
      WhereConditions :=
        mapSet d.WhereConditions (normalizeTableName (String.mk table)) (String.mk cond) }
  | _ => d

/-- The `switch` of `parseIniOptions` for one key, followed by the two checks
of `errInt` and `errBool` (`log.Fatalf`, which ends the process). -/
def parseIniOptions.key (name value : String) (d : DumpOptions) : Run DumpOptions :=
  let withBool (f : Bool → DumpOptions) : Run DumpOptions :=
    match ParseBool value with
    | some b => .done (f b)
    | none => .fatal
  let withInt (f : Int → DumpOptions) : Run DumpOptions :=
    match Atoi value with
    | some i => .done (f i)
    | none => .fatal
  let withUint (f : Nat → DumpOptions) : Run DumpOptions :=
    match ParseUint value with
    | some n => .done (f n)
    | none => .fatal
  if name = "mysql-user" then
    .done { d with MySQLCredentials := { d.MySQLCredentials with User := value } }
  else if name = "mysql-password" then
    .done { d with MySQLCredentials := { d.MySQLCredentials with Password := value } }
  else if name = "mysql-host" then
    .done { d with MySQLHost := { d.MySQLHost with HostName := value } }
  else if name = "mysql-port" then
    if value ≠ "" then withInt (fun i => { d with MySQLHost := { d.MySQLHost with Port := i } })
    else .done d
  else if name = "mysql-socket" then
    .done { d with MySQLHost := { d.MySQLHost with SocketFile := value } }
  else if name = "threads" then
    if value ≠ "" then withInt (fun i => { d with Threads := i }) else .done d
  else if name = "chunk-size" then withUint (fun n => { d with ChunkSize := n })
  else if name = "output-chunk-size" then withUint (fun n => { d with OutputChunkSize := n })
  else if name = "lock-tables" then withBool (fun b => { d with LockTables := b })
  else if name = "tables-without-uniquekey" then .done { d with TablesWithoutUKOption := value }
  else if name = "destination" then .done { d with DestinationDir := value }
  else if name = "skip-use-database" then withBool (fun b => { d with SkipUseDatabase := b })
  else if name = "get-master-status" then withBool (fun b => { d with GetMasterStatus := b })
  else if name = "get-slave-status" then withBool (fun b => { d with LockTables := b })
  else if name = "add-drop-table" then withBool (fun b => { d with AddDropTable := b })
  else if name = "compress" then withBool (fun b => { d with Compress := b })
  else if name = "compress-level" then
    if value ≠ "" then withInt (fun i => { d with CompressLevel := i }) else .done d
  else if name = "consistent" then withBool (fun b => { d with Consistent := b })
  else if name = "where" then
    if ':' ∈ value.data then
      .done ((splitChar ',' value.data).foldl parseIniOptions.whereStep d)
    else .done { d with GlobalWhereCondition := value }
  else if name = "tables" then
    .done { d with TemporalOptions := { d.TemporalOptions with Tables := value } }
  else if name = "databases" then
    .done { d with TemporalOptions := { d.TemporalOptions with Databases := value } }
  else if name = "isolation-level" then
    .done { d with TemporalOptions := { d.TemporalOptions with IsolationLevel := value } }
  else if name = "all-databases" then
    withBool (fun b => { d with TemporalOptions := { d.TemporalOptions with AllDatabases := b } })
  else if name = "debug" then
    withBool (fun b => { d with TemporalOptions := { d.TemporalOptions with Debug := b } })
  else if name = "dry-run" then
    withBool (fun b => { d with TemporalOptions := { d.TemporalOptions with DryRun := b } })
  else if name = "execute" then
    withBool (fun b => { d with TemporalOptions := { d.TemporalOptions with Execute := b } })
  else if name = "quiet" then
    withBool (fun b => { d with TemporalOptions := { d.TemporalOptions with Quiet := b } })
  else .done d                                               -- log.Warningf

/-- Function `parseIniOptions`: `keys` are the `(name, value)` pairs of the
section in file order, `flagSet` the options given on the command line. -/
def parseIniOptions (flagSet : String → Bool) :
    List (String × String) → DumpOptions → Run DumpOptions
  | [], d => .done d
  | (name, value) :: rest, d =>
    if flagSet name then parseIniOptions flagSet rest d      -- continue
    else
      match parseIniOptions.key name value d with
      | .done d1 => parseIniOptions flagSet rest d1
      | r => r

/-- The bindings a `where` value asks for, as the specification words them:
each comma-separated part, trimmed, that holds a `:` binds the text before
its first `:` to the text after it. -/
def whereBindings (whereValue : String) : List (String × String) :=
  ((splitChar ',' whereValue.data).map TrimSpace).filterMap (fun p =>
    if ':' ∈ p then
      some (String.mk (p.takeWhile (fun c => c ≠ ':')),
            String.mk ((p.dropWhile (fun c => c ≠ ':')).drop 1))
    else none)

/-- The value the last binding for `key` gives, if any binding is for `key`. -/
def findLast : List (String × String) → String → Option String
  | [], _ => none
  | (k, v) :: rest, key =>
    match findLast rest key with
    | some x => some x
    | none => if k = key then some v else none

/-! ## buffer.go: the sink -/

/-- What a sink does to the layers below it. -/
inductive SinkEvent where
  | create (path : String)        -- os.Create(path)
  | flush                         -- bufio.Writer.Flush
  | gzipClose                     -- gzip.Writer.Close
  | fileClose (path : String)     -- os.File.Close on the descriptor opened for path
  deriving DecidableEq, Repr

/-- The errors `Buffer.Close` can return; `errInvalid` is `os.ErrInvalid`, which
`(*os.File).Close` returns on a nil receiver, and `nilGzipWriter` the nil
dereference of `(*gzip.Writer).Close`. -/
inductive SinkError where
  | flushFailed
  | gzipCloseFailed
  | fileCloseFailed
  | errInvalid
  | nilGzipWriter
  deriving DecidableEq, Repr

/-- Whether each step on the layers below succeeds. -/
structure SinkEnv where
  createOk : Bool
  flushOk : Bool
  gzipCloseOk : Bool
  fileCloseOk : Bool
  deriving DecidableEq, Repr

/-- Record `Buffer`: its `Type`, whether `GzipWriter` is set, and the path of the
file `FileDescriptor` points to (`none` for a nil pointer). The `bufio.Writer`
is always set. -/
structure Buffer where
  Typ : String
  GzipWriter : Bool
  FileDescriptor : Option String
  deriving DecidableEq, Repr

/-- Call `b.FileDescriptor.Close()`. -/
def Buffer.closeFile (env : SinkEnv) (b : Buffer) : List SinkEvent × Option SinkError :=
  match b.FileDescriptor with
  | none => ([], some .errInvalid)
  | some path => ([.fileClose path], if env.fileCloseOk then none else some .fileCloseFailed)

/-- Method `Buffer.Close`: the events it causes, in order, and the error it
returns (`none` for nil). -/
def Buffer.Close (env : SinkEnv) (b : Buffer) : List SinkEvent × Option SinkError :=
  if !env.flushOk then ([.flush], some .flushFailed)
  else if b.Typ = "gzip" then                                -- case BufferTypeGzipFile
    if !b.GzipWriter then ([.flush], some .nilGzipWriter)
    else if !env.gzipCloseOk then ([.flush, .gzipClose], some .gzipCloseFailed)
    else ([.flush, .gzipClose] ++ (b.closeFile env).1, (b.closeFile env).2)
  else if b.Typ = "file" then                                -- case BufferTypeFile
    ([.flush] ++ (b.closeFile env).1, (b.closeFile env).2)
  else ([.flush], none)

/-- Function `NewFileBuffer`: the events it causes and the sink it returns
(`Run.fatal` for its two `log.Fatalf`; `gzip.NewWriterLevel` accepts the levels
-2 to 9). -/
def NewFileBuffer (env : SinkEnv) (fileName : String) (compress : Bool)
    (compressLevel : Int) : List SinkEvent × Run Buffer :=
  let fileName1 :=
    if compress && !(".gz".data.isSuffixOf fileName.data) then fileName ++ ".gz" else fileName
  if !env.createOk then ([.create fileName1], .fatal)
  else if compress then
    if compressLevel < -2 ∨ 9 < compressLevel then ([.create fileName1], .fatal)
    else ([.create fileName1], .done { Typ := "gzip", GzipWriter := true, FileDescriptor := none })
  else ([.create fileName1], .done { Typ := "file", GzipWriter := false, FileDescriptor := none })

/-! ## taskmanager.go: the definition files -/

/-- The flags `#`, `0`, `+`, `-` and space of a `fmt` verb. -/
def isFmtFlag (c : Char) : Bool := c = '#' || c = '0' || c = '+' || c = '-' || c = ' '

/-- What `fmt` prints for a format text when it is given no operand: text is
copied; after a `%` and its flags, `%` prints a percent sign, any other verb
`c` prints `%!c(MISSING)`, and the end of the text prints `%!(NOVERB)`. The
flag tells whether a `%` is open. A width, a precision, a star or an argument
index after the `%` is outside this model (`none`). -/
def fmtNoOperands : Bool → List Char → Option (List Char)
  | false, [] => some []
  | true, [] => some "%!(NOVERB)".data
  | false, c :: cs =>
    if c = '%' then fmtNoOperands true cs
    else (fmtNoOperands false cs).map (fun out => c :: out)
  | true, c :: cs =>
    if isFmtFlag c then fmtNoOperands true cs
    else if c.isDigit || c = '.' || c = '*' || c = '[' then none
    else if c = '%' then (fmtNoOperands false cs).map (fun out => '%' :: out)
    else (fmtNoOperands false cs).map (fun out => "%!".data ++ [c] ++ "(MISSING)".data ++ out)

/-- Call `fmt.Fprintf(buffer, format)`, without operands, on a sink whose
content so far is `buffer`. -/
def Fprintf0 (buffer : String) (format : String) : Option String :=
  (fmtNoOperands false format.data).map (fun out => buffer ++ String.mk out)

/-- Function `GetUseDatabaseSQL`. -/
def GetUseDatabaseSQL (schema : String) : String := "USE " ++ schema

/-- Function `GetDropTableIfExistSQL`. -/
def GetDropTableIfExistSQL (table : String) : String := "DROP TABLE IF EXISTS " ++ table

/-- Method `Table.GetSchema`: the database name escaped. -/
def Table.GetSchema (t : Table) : String := "`" ++ t.schema ++ "`"

/-- Method `Table.GetUnescapedFullName`. -/
def Table.GetUnescapedFullName (t : Table) : String := t.schema ++ "." ++ t.name

/-- The body of the loop of `TaskManager.WriteTablesSQL` for one task: the text
written to the task's definition file. -/
def TaskManager.WriteTablesSQL.body (tm : TaskManager) (addDropTable : Bool) (task : Task) :
    Option String :=
  let b1 :=
    if !tm.SkipUseDatabase then
      Fprintf0 "" (GetUseDatabaseSQL task.Table.GetSchema ++ ";\n")
    else some ""
  let b2 := b1.bind (fun b => Fprintf0 b "/*!40101 SET NAMES binary*/;\n")
  let b3 := b2.bind (fun b => Fprintf0 b "/*!40014 SET FOREIGN_KEY_CHECKS=0*/;\n")
  let b4 :=
    if addDropTable then
      b3.bind (fun b => Fprintf0 b (GetDropTableIfExistSQL task.Table.GetName ++ ";\n"))
    else b3
  b4.bind (fun b => Fprintf0 b (task.Table.CreateTableSQL ++ ";\n"))

/-- Method `TaskManager.WriteTablesSQL`: for each task of the pool, the path
`NewTableDefinitionBuffer` asks a sink for and the text written to it. -/
def TaskManager.WriteTablesSQL (tm : TaskManager) (tasksPool : List Task)
    (addDropTable : Bool) : List (String × Option String) :=
  tasksPool.map (fun task =>
    (tm.DestinationDir ++ "/" ++ task.Table.GetUnescapedFullName ++ "-definition.sql",
     TaskManager.WriteTablesSQL.body tm addDropTable task))

/-- The text the specification gives for a definition file. -/
def definitionFileSpec (skipUseDatabase addDropTable : Bool) (t : Table) : String :=
  (if !skipUseDatabase then "USE `" ++ t.schema ++ "`;\n" else "")
    ++ "/*!40101 SET NAMES binary*/;\n"
    ++ "/*!40014 SET FOREIGN_KEY_CHECKS=0*/;\n"
    ++ (if addDropTable then "DROP TABLE IF EXISTS `" ++ t.name ++ "`;\n" else "")
    ++ t.CreateTableSQL ++ ";\n"

/-- A task on table `db.t` whose `CREATE TABLE` text holds a percent sign. -/
def exampleTaskPercent : Task :=
  { Table := { name := "t", schema := "db", primaryKey := ["id"], uniqueKey := [],
               keyForChunks := "",
               CreateTableSQL := "CREATE TABLE `t` (`id` int, `note` text COMMENT '5% off')" },
    ChunkSize := 10,
    TaskManager := { TablesWithoutPKOption := "error", ChunksChannel := [],
                     TotalChunks := 0, Queue := 0 },
    TotalChunks := 0, chunkMin := 0, chunkMax := 0 }

/-! ## taskmanager.go: establishing the snapshot -/

/-- The statements and calls `GetTransactions` sends to the database. -/
inductive DbAction where
  | lockAllTables                       -- FLUSH TABLES WITH READ LOCK
  | lockTables (sql : String)           -- LOCK TABLES t1 READ, ...
  | beginTx (worker : Nat)              -- BeginTx, read-only, on the worker's connection
  | showMasterStatus                    -- getMasterData: SHOW MASTER STATUS
  | multiMasterProbe                    -- getSlaveData: SELECT @@default_master_connection
  | showSlaveStatus (all : Bool)        -- getSlaveData: SHOW ALL SLAVES STATUS / SHOW SLAVE STATUS
  | unlockTables                        -- UNLOCK TABLES
  deriving DecidableEq, Repr

/-- How the database answers: whether the lock statement succeeds, whether
`BeginTx` of worker `i` succeeds, whether `getMasterData` and `getSlaveData`
reach their end (each has `log.Fatalf` exits after its query), and whether the
multi-source probe succeeds. -/
structure SnapshotEnv where
  lockOk : Bool
  beginOk : Nat → Bool
  masterOk : Bool
  multiMaster : Bool
  slaveOk : Bool

/-- Function `GetLockTablesSQL`. -/
def GetLockTablesSQL (tasksPool : List Task) (mode : String) : String :=
  "LOCK TABLES " ++
    String.intercalate "," (tasksPool.map (fun task => " " ++ task.Table.GetFullName ++ " " ++ mode))

/-- The lock statement of `GetTransactions`: `lockAllTables` or `lockTables`. -/
def lockAction (tasksPool : List Task) (allDatabases : Bool) : DbAction :=
  if allDatabases then .lockAllTables else .lockTables (GetLockTablesSQL tasksPool "READ")

/-- Method `TaskManager.createWorkers`, from worker `i` on with `n` workers
left: the calls made and whether it returned nil. -/
def createWorkers (env : SnapshotEnv) : Nat → Nat → List DbAction × Bool
  | 0, _ => ([], true)
  | n + 1, i =>
    if env.beginOk i then
      ((DbAction.beginTx i) :: (createWorkers env n (i + 1)).1, (createWorkers env n (i + 1)).2)
    else ([DbAction.beginTx i], false)

/-- Method `TaskManager.GetTransactions` with `workers` worker connections: the
actions sent to the database, in order, and how the call ends. A failed
`LOCK TABLES` is only logged (`log.Criticalf`), a failed
`FLUSH TABLES WITH READ LOCK` ends the process (`log.Fatalf`). -/
def TaskManager.GetTransactions (tm : TaskManager) (tasksPool : List Task) (workers : Nat)
    (env : SnapshotEnv) (lockTables allDatabases : Bool) : List DbAction × Run Unit :=
  let locking : List DbAction := if lockTables then [lockAction tasksPool allDatabases] else []
  if lockTables && allDatabases && !env.lockOk then (locking, .fatal)
  else
    let w := createWorkers env workers 0
    if !w.2 then (locking ++ w.1 ++ [.unlockTables], .fatal)
    else
      let master : List DbAction := if tm.GetMasterStatus then [.showMasterStatus] else []
      if tm.GetMasterStatus && !env.masterOk then (locking ++ w.1 ++ master, .fatal)
      else
        let slave : List DbAction :=
          if tm.GetSlaveStatus then [.multiMasterProbe, .showSlaveStatus env.multiMaster] else []
        if tm.GetSlaveStatus && !env.slaveOk then (locking ++ w.1 ++ master ++ slave, .fatal)
        else
          let unlocking : List DbAction := if lockTables then [.unlockTables] else []
          (locking ++ w.1 ++ master ++ slave ++ unlocking, .done ())

/-- A database on which every step of `GetTransactions` succeeds. -/
def healthyEnv : SnapshotEnv :=
  { lockOk := true, beginOk := fun _ => true, masterOk := true, multiMaster := false,
    slaveOk := true }

/-! ## taskmanager.go: the worker -/

/-- The receive `chunk, ok := <-tm.ChunksChannel` on a channel that holds the
plans `tm.ChunksChannel` and is closed or not: the plan received (`none` for
`ok == false`) and the channel after it, or `none` when the receive blocks. -/
def TaskManager.receive (tm : TaskManager) (closed : Bool) :
    Option (Option DataChunk × TaskManager) :=
  match tm.ChunksChannel with
  | c :: rest => some (some c, { tm with ChunksChannel := rest })
  | [] => if closed then some (none, tm) else none

/-- The head of the loop of `StartWorker`: the receive followed by
`tm.Queue = tm.Queue - 1`, which comes before `ok` is looked at. -/
def StartWorker.receive (tm : TaskManager) (closed : Bool) :
    Option (Option DataChunk × TaskManager) :=
  match tm.receive closed with
  | some (chunk, tm1) => some (chunk, { tm1 with Queue := wrapInt64 (tm1.Queue - 1) })
  | none => none

/-- The queue between planners and workers with the two counts the
specification speaks of: plans enqueued so far and plans dequeued so far. -/
structure Pipeline where
  tm : TaskManager
  closed : Bool
  enqueued : Nat
  dequeued : Nat
  deriving DecidableEq, Repr

/-- The steps of planners and workers, each taken as a whole. -/
inductive PipelineStep where
  | addChunk (t : Task) (chunk : DataChunk)   -- the call Task.AddChunk(chunk) of planner t
  | workerReceive                             -- the head of the loop of a worker
  | close                                     -- close(ChunksChannel)
  deriving DecidableEq, Repr

/-- One step of the pipeline; `none` when the step cannot be taken (a send on
a closed channel, a receive that blocks). -/
def Pipeline.step (s : Pipeline) : PipelineStep → Option Pipeline
  | .addChunk t chunk =>
    if s.closed then none
    else some { s with tm := (({ t with TaskManager := s.tm } : Task).AddChunk chunk).TaskManager,
                       enqueued := s.enqueued + 1 }
  | .workerReceive =>
    match StartWorker.receive s.tm s.closed with
    | some (some _, tm1) => some { s with tm := tm1, dequeued := s.dequeued + 1 }
    | some (none, tm1) => some { s with tm := tm1 }
    | none => none
  | .close => some { s with closed := true }

/-- A sequence of steps from a state. -/
def Pipeline.run : Pipeline → List PipelineStep → Option Pipeline
  | s, [] => some s
  | s, x :: xs =>
    match s.step x with
    | some s1 => Pipeline.run s1 xs
    | none => none

/-- What a worker does besides counting, in order. -/
inductive WorkerEvent where
  | closeStmt                                     -- stmt.Close()
  | prepare (sql : String)                        -- tm.workersTx[workerId].Prepare(query)
  | newChunkBuffer (dir fileName : String)        -- NewChunkBuffer: file and preamble
  | writeUse (schema : String)                    -- Fprintf(buffer, "USE %s\n", schema)
  | flush (table : String)                        -- buffer.Flush()
  | parse (chunk : DataChunk)                     -- chunk.Parse(stmt, buffer)
  | closeBuffer (table : String)                  -- buffer.Close()
  | commit                                        -- tm.workersTx[workerId].Commit()
  deriving DecidableEq, Repr

/-- The locals of `StartWorker`: `query`, whether `stmt` is non-nil, the keys
of `bufferChunk`, and the events so far. -/
structure WorkerState where
  query : String
  stmt : Bool
  bufferChunk : List String
  events : List WorkerEvent
  deriving DecidableEq, Repr

/-- The body of the loop of `StartWorker` after a plan was received;
`prepareOk` tells whether `Prepare` succeeds on a text (`log.Fatalf`
otherwise). -/
def StartWorker.handle (tm : TaskManager) (workerId : Nat) (prepareOk : String → Bool)
    (st : WorkerState) (chunk : DataChunk) : Run WorkerState :=
  let sql := chunk.GetPrepareSQL.1
  let st1 : WorkerState :=
    if st.query ≠ sql then
      { st with
        query := sql
        events := st.events ++ (if st.stmt then [WorkerEvent.closeStmt] else [])
                    ++ [WorkerEvent.prepare sql]
        stmt := prepareOk sql }
    else
      { st with
        events := st.events ++ [WorkerEvent.prepare st.query]
        stmt := prepareOk st.query }
  if !prepareOk st1.query then .fatal
  else
    let tablename := chunk.Table.GetUnescapedFullName
    let st2 : WorkerState :=
      if tablename ∉ st1.bufferChunk then
        { st1 with
          bufferChunk := st1.bufferChunk ++ [tablename]
          events := st1.events ++
            [WorkerEvent.newChunkBuffer tm.DestinationDir
              (if chunk.IsSingleChunk then tablename ++ ".sql"
               else tablename ++ "-thread" ++ toString workerId ++ ".sql")] }
      else st1
    let st3 : WorkerState :=
      if !tm.SkipUseDatabase then
        { st2 with events := st2.events ++ [WorkerEvent.writeUse chunk.Table.GetSchema] }
      else st2
    .done { st3 with
            events := st3.events ++
              [WorkerEvent.flush tablename, WorkerEvent.parse chunk, WorkerEvent.closeStmt] }

/-- Method `TaskManager.StartWorker` of one worker running alone on the
channel: `fuel` bounds its iterations, and `Run.outOfFuel` also stands for a
receive that blocks. The sinks are closed in the order they were made. -/
def TaskManager.StartWorker (workerId : Nat) (prepareOk : String → Bool) (closed : Bool) :
    Nat → TaskManager → WorkerState → Run (TaskManager × WorkerState)
  | 0, _, _ => .outOfFuel
  | fuel + 1, tm, st =>
    match StartWorker.receive tm closed with
    | none => .outOfFuel
    | some (none, tm1) =>
      .done (tm1, { st with
                    events := st.events ++ st.bufferChunk.map WorkerEvent.closeBuffer
                                ++ [WorkerEvent.commit] })
    | some (some chunk, tm1) =>
      match StartWorker.handle tm1 workerId prepareOk st chunk with
      | .done st1 => TaskManager.StartWorker workerId prepareOk closed fuel tm1 st1
      | .fatal => .fatal
      | .outOfFuel => .outOfFuel

/-- The text of a `Prepare` event. -/
def WorkerEvent.prepared : WorkerEvent → Option String
  | .prepare sql => some sql
  | _ => none

/-- Whether a prepared statement is open after the events, when `isOpen` tells
whether one was open before them; `none` when a `Prepare` comes while the
statement prepared before it has not been closed. -/
def stmtOpenAfter : Bool → List WorkerEvent → Option Bool
  | isOpen, [] => some isOpen
  | isOpen, e :: es =>
    match e with
    | .prepare _ => if isOpen then none else stmtOpenAfter true es
    | .closeStmt => stmtOpenAfter false es
    | _ => stmtOpenAfter isOpen es

/-- The state in which a worker starts. -/
def WorkerState.init : WorkerState :=
  { query := "", stmt := false, bufferChunk := [], events := [] }

/-- A range plan of table `db.t` with chunk key `id`. -/
def exampleRange (seq : Nat) (lo hi : Int) : DataChunk :=
  { Min := lo, Max := hi, Sequence := seq,
    Table := { name := "t", schema := "db", primaryKey := ["id"], uniqueKey := [],
               keyForChunks := "id" },
    IsSingleChunk := false, IsLastChunk := false }

/-- A task manager whose channel holds the given plans. -/
def exampleManager (channel : List DataChunk) : TaskManager :=
  { TablesWithoutPKOption := "error", ChunksChannel := channel, TotalChunks := 0, Queue := 0 }

/-! ## Rows of a plan -/

/-- The number of rows of the table with chunk-key values `keys` that the plan
selects. -/
def rowsSelected (keys : List Int) (p : DataChunk) : Nat :=
  (keys.filter (fun k => p.selects k)).length

/-- The dense contiguous chunk-key values 1, 2, ..., n. -/
def denseKeys (n : Nat) : List Int := (List.range n).map (fun i => (i : Int) + 1)

/-! ## Properties of ParseString -/

theorem ParseString.step_eq (acc : List UInt8) (b : UInt8) :
    ParseString.step (false, acc) b = (false, acc ++ escapeImage b) := by
  unfold ParseString.step escapeImage
  by_cases h1 : b = 39
  · simp [h1]
  by_cases h2 : b = 92
  · simp [h2]
  by_cases h3 : b = 34
  · simp [h3]
  by_cases h4 : b = 10
  · subst h4; simp
  by_cases h5 : b = 13
  · subst h5; simp
  simp [h1, h2, h3, h4, h5]

theorem ParseString.foldl_eq (s : List UInt8) (acc : List UInt8) :
    s.foldl ParseString.step (false, acc) = (false, acc ++ s.flatMap escapeImage) := by
  induction s generalizing acc with
  | nil => simp
  | cons b t ih =>
    rw [List.foldl_cons, ParseString.step_eq, ih]
    simp [List.flatMap_cons, List.append_assoc]

/-- C4: `ParseString s` is the in-order concatenation of the per-byte images
of `s` (quote, backslash, double quote prefixed by a backslash; LF and CR
replaced by backslash `n` and backslash `r`; every other byte unchanged), and
the bytes 27 5C 0A FF give 5C 27 5C 5C 5C 6E FF. -/
theorem ParseString_eq_flatMap :
    (∀ s : List UInt8, ParseString s = s.flatMap escapeImage) ∧
    (∀ b : UInt8, escapeImage b =
        if b = 39 ∨ b = 92 ∨ b = 34 then [92, b]
        else if b = 10 then [92, 110]
        else if b = 13 then [92, 114]
        else [b]) ∧
    escapeImage 0 = [0] ∧ escapeImage 255 = [255] ∧
    ParseString [0x27, 0x5C, 0x0A, 0xFF] = [0x5C, 0x27, 0x5C, 0x5C, 0x5C, 0x6E, 0xFF] := by
  refine ⟨fun s => ?_, fun b => rfl, by decide, by decide, by decide⟩
  unfold ParseString
  rw [ParseString.foldl_eq]
  simp

theorem mysqlDecode_escapeImage (b : UInt8) (rest : List UInt8) :
    mysqlDecode (escapeImage b ++ rest) = (mysqlDecode rest).map (fun out => b :: out) := by
  unfold escapeImage
  by_cases h1 : b = 39
  · subst h1; simp [mysqlDecode, mysqlEscaped]
  by_cases h2 : b = 92
  · subst h2; simp [mysqlDecode, mysqlEscaped]
  by_cases h3 : b = 34
  · subst h3; simp [mysqlDecode, mysqlEscaped]
  by_cases h4 : b = 10
  · subst h4; simp [mysqlDecode, mysqlEscaped]
  by_cases h5 : b = 13
  · subst h5; simp [mysqlDecode, mysqlEscaped]
  simp only [h1, h2, h3, h4, h5, or_self, if_false, List.singleton_append]
  rw [mysqlDecode.eq_def]
  simp [h1, h2]

theorem mysqlDecode_flatMap (s : List UInt8) :
    mysqlDecode (s.flatMap escapeImage) = some s := by
  induction s with
  | nil => simp [mysqlDecode]
  | cons b t ih =>
    rw [List.flatMap_cons, mysqlDecode_escapeImage, ih]
    rfl

/-- C5: decoding `ParseString s` with the decoder of single-quoted MySQL
literals (default SQL mode) consumes the whole text without meeting an
unescaped quote and gives back `s` byte for byte. -/
theorem mysqlDecode_ParseString (s : List UInt8) :
    mysqlDecode (ParseString s) = some s := by
  have h : ParseString s = s.flatMap escapeImage := by
    unfold ParseString
    rw [ParseString.foldl_eq]
    simp
  rw [h, mysqlDecode_flatMap]


/-! ## Text helpers -/

theorem strBytes_append (a b : String) : strBytes (a ++ b) = strBytes a ++ strBytes b := by
  simp [strBytes, String.data_append, List.flatMap_append]

theorem joinWith_cons (sep x : List UInt8) (xs : List (List UInt8)) :
    joinWith sep (x :: xs) = x ++ xs.flatMap (fun y => sep ++ y) := by
  induction xs generalizing x with
  | nil => simp [joinWith]
  | cons y ys ih => simp [joinWith, ih, List.flatMap_cons, List.append_assoc]

/-! ## Properties of the row encoder -/

theorem writeValue_plain (buffer : List UInt8) (d : Value) (h : d.isPlain = true) :
    writeValue buffer d = some (buffer ++ d.literal) := by
  cases d <;> simp_all [writeValue, Value.isPlain, Value.literal, List.append_assoc]

theorem writeValues_plain (max : Nat) (ds : List Value) :
    ∀ (i : Nat) (buffer : List UInt8), i + ds.length = max →
      (∀ v ∈ ds, v.isPlain = true) →
      writeValues max i ds buffer = (buffer ++ rowLiteral ds, .returned) := by
  induction ds with
  | nil => intro i buffer _ _; simp [writeValues, rowLiteral, joinWith]
  | cons d ds ih =>
    intro i buffer hlen hp
    have hd : d.isPlain = true := hp d (List.mem_cons_self _ _)
    have hds : ∀ v ∈ ds, v.isPlain = true := fun v hv => hp v (List.mem_cons_of_mem _ hv)
    rw [writeValues, writeValue_plain buffer d hd]
    cases ds with
    | nil =>
      have hi : (i : Int) = (max : Int) - 1 := by simp at hlen; omega
      simp [hi, writeValues, rowLiteral, joinWith]
    | cons e es =>
      have hi : (i : Int) ≠ (max : Int) - 1 := by simp at hlen; omega
      have hlen2 : (i + 1) + (e :: es).length = max := by simp at hlen ⊢; omega
      simp only [hi, ne_eq, not_false_eq_true, if_true]
      rw [ih (i + 1) _ hlen2 hds]
      simp [rowLiteral, joinWith, List.append_assoc]

theorem writeRows_rest (tbl : Table) (rows : List (List Value)) :
    ∀ buffer : List UInt8, (∀ r ∈ rows, ∀ v ∈ r, v.isPlain = true) →
      writeRows tbl (rows.map some) false buffer
        = (buffer ++ rows.flatMap (fun r => strBytes "),\n(" ++ rowLiteral r), .returned) := by
  induction rows with
  | nil => intro buffer _; simp [writeRows]
  | cons r rs ih =>
    intro buffer hp
    have hr : ∀ v ∈ r, v.isPlain = true := hp r (List.mem_cons_self _ _)
    have hrs : ∀ q ∈ rs, ∀ v ∈ q, v.isPlain = true :=
      fun q hq => hp q (List.mem_cons_of_mem _ hq)
    simp only [List.map_cons, writeRows, Bool.not_false, if_true, Bool.false_eq_true, if_false]
    rw [writeValues_plain r.length r 0 _ (by simp) hr]
    simp only
    rw [ih _ hrs]
    simp [List.flatMap_cons, List.append_assoc]

theorem writeRows_first (tbl : Table) (r : List Value) (rs : List (List Value))
    (buffer : List UInt8) (hp : ∀ q ∈ r :: rs, ∀ v ∈ q, v.isPlain = true) :
    writeRows tbl ((r :: rs).map some) true buffer
      = (buffer ++ strBytes ("INSERT INTO " ++ tbl.GetName ++ " VALUES \n(")
          ++ joinWith (strBytes "),\n(") ((r :: rs).map rowLiteral), .returned) := by
  have hr : ∀ v ∈ r, v.isPlain = true := hp r (List.mem_cons_self _ _)
  have hrs : ∀ q ∈ rs, ∀ v ∈ q, v.isPlain = true :=
    fun q hq => hp q (List.mem_cons_of_mem _ hq)
  simp only [List.map_cons, writeRows, if_true, Bool.not_true, Bool.false_eq_true, if_false]
  rw [writeValues_plain r.length r 0 _ (by simp) hr]
  simp only
  rw [writeRows_rest tbl rs _ hrs, joinWith_cons]
  simp [List.flatMap_map, List.append_assoc]

/-- C6: when the chunk's query yields at least one row (values being byte
strings, int64 or null), `Parse` writes, after the comment line, the text
"INSERT INTO <escaped table name> VALUES \n(" followed by the encoded rows
joined with "),\n(" and closed by ");\n", a row being its literals joined
with ",". -/
theorem Parse_rows_framing (dc : DataChunk)
    (stmt : List Int → Option (List (Option (List Value))))
    (buffer : List UInt8) (rows : List (List Value))
    (hne : rows ≠ [])
    (hq : stmt dc.queryArgs = some (rows.map some))
    (hp : ∀ r ∈ rows, ∀ v ∈ r, v.isPlain = true) :
    dc.Parse stmt buffer
      = (buffer ++ strBytes dc.comment
          ++ (strBytes ("INSERT INTO `" ++ dc.Table.name ++ "` VALUES \n(")
              ++ joinWith (strBytes "),\n(") (rows.map rowLiteral)
              ++ strBytes ");\n"), .returned) := by
  cases rows with
  | nil => exact absurd rfl hne
  | cons r rs =>
    unfold DataChunk.Parse
    rw [hq]
    simp only
    rw [writeRows_first dc.Table r rs _ hp]
    have hname : "INSERT INTO " ++ dc.Table.GetName ++ " VALUES \n("
        = "INSERT INTO `" ++ dc.Table.name ++ "` VALUES \n(" := by
      apply String.ext
      simp [Table.GetName, String.data_append]
    rw [hname]
    simp [List.append_assoc]

/-- C6, on the rows (1,'a'),(2,'b'),(3,'c') of table `t`. -/
theorem Parse_rows_framing_witness :
    (DataChunk.Parse
        { Min := 0, Max := 0, Sequence := 0,
          Table := { name := "t", schema := "db", primaryKey := ["id"], uniqueKey := [],
                     keyForChunks := "id" },
          IsSingleChunk := false, IsLastChunk := true }
        (fun _ => some [some [.int64 1, .bytes [97]], some [.int64 2, .bytes [98]],
                        some [.int64 3, .bytes [99]]])
        [])
      = (strBytes "-- Chunk 0 - from 0 to 0\n"
          ++ strBytes "INSERT INTO `t` VALUES \n(1,'a'),\n(2,'b'),\n(3,'c');\n", .returned) :=
  (Parse_rows_framing
      { Min := 0, Max := 0, Sequence := 0,
        Table := { name := "t", schema := "db", primaryKey := ["id"], uniqueKey := [],
                   keyForChunks := "id" },
        IsSingleChunk := false, IsLastChunk := true }
      (fun _ => some [some [.int64 1, .bytes [97]], some [.int64 2, .bytes [98]],
                      some [.int64 3, .bytes [99]]])
      []
      [[.int64 1, .bytes [97]], [.int64 2, .bytes [98]], [.int64 3, .bytes [99]]]
      (by decide) rfl (by decide)).trans (by decide)

/-- C7: when the chunk's query yields no row, `Parse` writes no
`INSERT INTO ... VALUES` header: after the comment line the sink receives
exactly ");\n". -/
theorem Parse_no_rows (dc : DataChunk)
    (stmt : List Int → Option (List (Option (List Value))))
    (buffer : List UInt8)
    (hq : stmt dc.queryArgs = some []) :
    dc.Parse stmt buffer = (buffer ++ strBytes dc.comment ++ strBytes ");\n", .returned) := by
  unfold DataChunk.Parse
  rw [hq]
  simp [writeRows]

/-- C7, on a tail plan of table `t` whose query returns nothing. -/
theorem Parse_no_rows_witness :
    (DataChunk.Parse
        { Min := 0, Max := 0, Sequence := 0,
          Table := { name := "t", schema := "db", primaryKey := ["id"], uniqueKey := [],
                     keyForChunks := "id" },
          IsSingleChunk := false, IsLastChunk := true }
        (fun _ => some []) [])
      = (strBytes "-- Chunk 0 - from 0 to 0\n);\n", .returned) :=
  (Parse_no_rows
      { Min := 0, Max := 0, Sequence := 0,
        Table := { name := "t", schema := "db", primaryKey := ["id"], uniqueKey := [],
                   keyForChunks := "id" },
        IsSingleChunk := false, IsLastChunk := true }
      (fun _ => some []) [] rfl).trans (by decide)

/-- C8: a value of a type other than byte string, int64, float64, time or null
is not written: the default case of the encoder panics on it, whatever the
sink holds, and on the row (1, "abc") of a one-row chunk `Parse` ends in that
panic with the sink cut right after `(1,`. -/
theorem Parse_other_type_panics :
    (∀ (buffer raw : List UInt8), writeValue buffer (.other raw) = none) ∧
    (DataChunk.Parse
        { Min := 0, Max := 0, Sequence := 0,
          Table := { name := "t", schema := "db", primaryKey := ["id"], uniqueKey := [],
                     keyForChunks := "id" },
          IsSingleChunk := false, IsLastChunk := true }
        (fun _ => some [some [.int64 1, .other [97, 98, 99]]]) [])
      = (strBytes "-- Chunk 0 - from 0 to 0\nINSERT INTO `t` VALUES \n(1,", .panicked) :=
  ⟨fun _ _ => rfl, by decide⟩

/-! ## Properties of the chunk plans -/

theorem Table.GetPrimaryOrUniqueKey_again (t : Table) :
    t.GetPrimaryOrUniqueKey.2.GetPrimaryOrUniqueKey.1 = t.GetPrimaryOrUniqueKey.1 := by
  unfold Table.GetPrimaryOrUniqueKey
  by_cases h : t.keyForChunks = ""
  · rcases hp : t.primaryKey with _ | ⟨k, _ | ⟨k2, ks⟩⟩
    · rcases hu : t.uniqueKey with _ | ⟨u, us⟩
      · simp [h, hp, hu]
      · by_cases hu0 : u = "" <;> simp [h, hp, hu, hu0]
    · by_cases hk0 : k = "" <;> simp [h, hp, hk0]
    · rcases hu : t.uniqueKey with _ | ⟨u, us⟩
      · simp [h, hp, hu]
      · by_cases hu0 : u = "" <;> simp [h, hp, hu, hu0]
  · simp [h]

theorem placeholders_append (a b : String) :
    placeholders (a ++ b) = placeholders a + placeholders b := by
  simp [placeholders, String.data_append, List.count_append]

/-- C9: on a table with escaped full name `F` and chunk key `k`,
`GetPrepareSQL` is "SELECT /*!40001 SQL_NO_CACHE */ * FROM F" for a single
plan, that text followed by " WHERE k BETWEEN ? AND ? ORDER BY k" for a range
plan and by " WHERE k >= ? ORDER BY k" for a tail plan; the `?` of the text
other than those inside the identifiers `F` and `k` number 0, 2 and 1, which
is the number of arguments `Parse` passes to the statement. -/
theorem GetPrepareSQL_text (dc : DataChunk) :
    dc.GetPrepareSQL.1 =
      (if dc.IsSingleChunk then
          "SELECT /*!40001 SQL_NO_CACHE */ * FROM " ++ dc.Table.GetFullName
        else if dc.IsLastChunk then
          "SELECT /*!40001 SQL_NO_CACHE */ * FROM " ++ dc.Table.GetFullName ++ " WHERE "
            ++ dc.Table.GetPrimaryOrUniqueKey.1 ++ " >= ? ORDER BY "
            ++ dc.Table.GetPrimaryOrUniqueKey.1
        else
          "SELECT /*!40001 SQL_NO_CACHE */ * FROM " ++ dc.Table.GetFullName ++ " WHERE "
            ++ dc.Table.GetPrimaryOrUniqueKey.1 ++ " BETWEEN ? AND ? ORDER BY "
            ++ dc.Table.GetPrimaryOrUniqueKey.1) ∧
    placeholders dc.GetPrepareSQL.1
      = dc.queryArgs.length + placeholders dc.Table.GetFullName
          + (if dc.IsSingleChunk then 0
             else 2 * placeholders dc.Table.GetPrimaryOrUniqueKey.1) ∧
    dc.queryArgs.length = (if dc.IsSingleChunk then 0 else if dc.IsLastChunk then 1 else 2) := by
  have hagain := Table.GetPrimaryOrUniqueKey_again dc.Table
  have hsel : placeholders "SELECT /*!40001 SQL_NO_CACHE */ * FROM " = 0 := by decide
  have hw : placeholders " WHERE " = 0 := by decide
  have hge : placeholders " >= ? ORDER BY " = 1 := by decide
  have hbt : placeholders " BETWEEN ? AND ? ORDER BY " = 2 := by decide
  have hge2 : ∀ x : String, " >= ?" ++ (" ORDER BY " ++ x) = " >= ? ORDER BY " ++ x := by
    intro x; rw [← String.append_assoc]; rfl
  have hbt2 : ∀ x : String,
      " BETWEEN ? AND ?" ++ (" ORDER BY " ++ x) = " BETWEEN ? AND ? ORDER BY " ++ x := by
    intro x; rw [← String.append_assoc]; rfl
  by_cases hs : dc.IsSingleChunk = true
  · simp [DataChunk.GetPrepareSQL, DataChunk.GetWhereSQL, DataChunk.GetOrderBYSQL,
      DataChunk.queryArgs, hs, placeholders_append, hsel]
  · by_cases hl : dc.IsLastChunk = true
    · simp [DataChunk.GetPrepareSQL, DataChunk.GetWhereSQL, DataChunk.GetOrderBYSQL,
        DataChunk.queryArgs, hs, hl, placeholders_append, hsel, hw, hge,
        hagain, String.append_assoc, hge2]
      omega
    · simp [DataChunk.GetPrepareSQL, DataChunk.GetWhereSQL, DataChunk.GetOrderBYSQL,
        DataChunk.queryArgs, hs, hl, placeholders_append, hsel, hw, hbt,
        hagain, String.append_assoc, hbt2]
      omega

/-- The prepared text of a range plan of table `db.t` with chunk key `id`, and
its two placeholders. -/
theorem GetPrepareSQL_example :
    (DataChunk.GetPrepareSQL
        { Min := 5, Max := 9, Sequence := 1,
          Table := { name := "t", schema := "db", primaryKey := ["id"], uniqueKey := [],
                     keyForChunks := "" },
          IsSingleChunk := false, IsLastChunk := false }).1
      = "SELECT /*!40001 SQL_NO_CACHE */ * FROM `db`.`t` WHERE id BETWEEN ? AND ? ORDER BY id" ∧
    placeholders
        "SELECT /*!40001 SQL_NO_CACHE */ * FROM `db`.`t` WHERE id BETWEEN ? AND ? ORDER BY id"
      = 2 := by
  refine ⟨by decide, by decide⟩

/-! ## Properties of the planner: the no-key path and sequence numbers -/

/-- C10: when the chunk key is empty and the policy is `single-chunk`,
`CreateChunks` emits exactly one plan, a single plan, if the probe
`SELECT 1 FROM t LIMIT 1` returns a row, and no plan at all if the probe
returns no row. -/
theorem CreateChunks_single_chunk (db : DB) (fuel : Nat) (t : Task)
    (hkey : t.Table.GetPrimaryOrUniqueKey.1 = "")
    (hpol : t.TaskManager.TablesWithoutPKOption = "single-chunk") :
    (∀ v, db .singleChunkTest = .ok v →
      ∃ dc, t.emitted db fuel = some [dc] ∧ dc.IsSingleChunk = true ∧
        dc.IsLastChunk = false ∧ dc.Sequence = 1) ∧
    (db .singleChunkTest = .errNoRows → t.emitted db fuel = some []) := by
  constructor
  · intro v hv
    refine ⟨NewSingleDataChunk
      { t with TotalChunks := 0, chunkMax := 0, chunkMin := 0,
               Table := t.Table.GetPrimaryOrUniqueKey.2 }, ?_, rfl, rfl, rfl⟩
    simp [Task.emitted, Task.CreateChunks, hkey, hpol, Task.GetSingleChunkTestQuery, hv,
      Task.AddChunk, TaskManager.AddChunk]
  · intro hv
    simp [Task.emitted, Task.CreateChunks, hkey, hpol, Task.GetSingleChunkTestQuery, hv]

/-- C10, on a key-less table: with a row the one plan is the single plan, and
on the empty table nothing is emitted. -/
theorem CreateChunks_single_chunk_witness :
    (∃ dc, exampleTaskNoKey.emitted (fun _ => .ok 1) 0 = some [dc] ∧
        dc.IsSingleChunk = true ∧ dc.IsLastChunk = false ∧ dc.Sequence = 1) ∧
    exampleTaskNoKey.emitted (tableDB []) 0 = some [] :=
  ⟨(CreateChunks_single_chunk (fun _ => .ok 1) 0 exampleTaskNoKey rfl rfl).1 1 rfl,
   (CreateChunks_single_chunk (tableDB []) 0 exampleTaskNoKey rfl rfl).2 rfl⟩

/-- C3: on the table with keys 1, 2, 3 and chunk size 10 the planner emits one
tail plan whose `Sequence` is 0 and whose comment line is
`-- Chunk 0 - from 0 to 0`; on the keys 1..10 with chunk size 3 the three
plans carry the sequence numbers 0, 1, 2. -/
theorem CreateChunks_sequence_starts_at_zero :
    (exampleTask 10).emitted (tableDB [1, 2, 3]) 2
      = some [{ Min := 0, Max := 0, Sequence := 0,
                Table := { name := "t", schema := "db", primaryKey := ["id"],
                           uniqueKey := [], keyForChunks := "id" },
                IsSingleChunk := false, IsLastChunk := true }] ∧
    (DataChunk.comment
        { Min := 0, Max := 0, Sequence := 0,
          Table := { name := "t", schema := "db", primaryKey := ["id"],
                     uniqueKey := [], keyForChunks := "id" },
          IsSingleChunk := false, IsLastChunk := true }) = "-- Chunk 0 - from 0 to 0\n" ∧
    ((exampleTask 3).emitted (tableDB [1, 2, 3, 4, 5, 6, 7, 8, 9, 10]) 4).map
        (fun plans => plans.map (fun p => (p.Sequence, p.Min, p.Max, p.IsLastChunk)))
      = some [(0, 0, 4, false), (1, 5, 7, false), (2, 8, 10, false)] := by
  refine ⟨by decide, by decide, by decide⟩

/-! ## Properties of the planner: the table's answers -/

theorem mem_keysFrom (keys : List Int) (lo k : Int) :
    k ∈ keysFrom keys lo ↔ k ∈ keys ∧ lo ≤ k := by
  simp [keysFrom, List.mem_filter, (List.perm_insertionSort (· ≤ ·) keys).mem_iff]

theorem keysFrom_pairwise (keys : List Int) (lo : Int) (hnd : keys.Nodup) :
    (keysFrom keys lo).Pairwise (· < ·) := by
  have hs : (keys.insertionSort (· ≤ ·)).Sorted (· ≤ ·) := List.sorted_insertionSort _ keys
  have hn : (keys.insertionSort (· ≤ ·)).Nodup :=
    (List.perm_insertionSort (· ≤ ·) keys).nodup_iff.mpr hnd
  exact List.Pairwise.filter _ (hs.lt_of_le hn)

theorem keysFrom_length_lt (keys : List Int) (x v e : Int)
    (hxv : x ≤ v) (he : e ∈ keys) (hxe : x ≤ e) (hev : e < v) :
    (keysFrom keys v).length < (keysFrom keys x).length := by
  have h1 : keysFrom keys v = (keysFrom keys x).filter (fun k => decide (v ≤ k)) := by
    unfold keysFrom
    rw [List.filter_filter]
    apply List.filter_congr
    intro a _
    by_cases hva : v ≤ a
    · have : x ≤ a := le_trans hxv hva
      simp [hva, this]
    · simp [hva]
  rw [h1]
  apply List.length_filter_lt_length_iff_exists.mpr
  exact ⟨e, (mem_keysFrom keys x e).mpr ⟨he, hxe⟩, by simpa using hev⟩

/-- What a successful boundary probe tells: the key returned is a key of the
table above the cursor, and fewer keys remain from it on. -/
theorem keysFrom_get (keys : List Int) (x v : Int) (c : Nat) (hc : 1 ≤ c)
    (hnd : keys.Nodup) (h : (keysFrom keys x)[c]? = some v) :
    v ∈ keys ∧ x < v ∧ (keysFrom keys v).length < (keysFrom keys x).length := by
  have hlt : c < (keysFrom keys x).length := by
    rcases List.getElem?_eq_some_iff.mp h with ⟨hlt, _⟩
    exact hlt
  have hv : (keysFrom keys x)[c] = v := by
    rcases List.getElem?_eq_some_iff.mp h with ⟨_, hv⟩
    exact hv
  have h0 : 0 < (keysFrom keys x).length := by omega
  have hmem0 : (keysFrom keys x)[0] ∈ keysFrom keys x := List.getElem_mem _
  have hmemc : (keysFrom keys x)[c] ∈ keysFrom keys x := List.getElem_mem _
  have hpw := keysFrom_pairwise keys x hnd
  have hlt0 : (keysFrom keys x)[0] < (keysFrom keys x)[c] :=
    List.pairwise_iff_getElem.mp hpw 0 c h0 hlt (by omega)
  rw [hv] at hlt0 hmemc
  have hm0 := (mem_keysFrom keys x _).mp hmem0
  have hmc := (mem_keysFrom keys x _).mp hmemc
  refine ⟨hmc.1, lt_of_le_of_lt hm0.2 hlt0, ?_⟩
  exact keysFrom_length_lt keys x v _ hmc.2 hm0.1 hm0.2 hlt0

theorem keysFrom_head_none (keys : List Int) (lo : Int)
    (h : (keysFrom keys lo).head? = none) : ∀ k ∈ keys, k < lo := by
  intro k hk
  by_contra hlt
  have : k ∈ keysFrom keys lo := (mem_keysFrom keys lo k).mpr ⟨hk, by omega⟩
  rw [List.head?_eq_none_iff] at h
  rw [h] at this
  exact absurd this (List.not_mem_nil _)

/-! ## Properties of the planner: the ranged loop -/

theorem wrapInt64_succ (v : Int) (h0 : 0 ≤ v) (h1 : v < 2 ^ 63 - 1) :
    wrapInt64 (v + 1) = v + 1 := by
  unfold wrapInt64
  have : (v + 1 + 2 ^ 63) % 2 ^ 64 = v + 1 + 2 ^ 63 := by
    apply Int.emod_eq_of_lt <;> omega
  omega

theorem Task.loop_stop (db : DB) (fuel : Nat) (t : Task) (l : Locals)
    (h : l.stopLoop = true) : Task.loop db fuel t l = some t := by
  unfold Task.loop
  simp [h]

theorem Task.loop_succ (db : DB) (fuel : Nat) (t : Task) (l : Locals)
    (h : l.stopLoop = false) :
    Task.loop db (fuel + 1) t l = Task.loop db fuel (t.loopBody db l).1 (t.loopBody db l).2 := by
  rw [Task.loop]
  simp [h]

/-- The ranged loop on a table: with enough fuel it returns, having sent a
tiling of range plans from the cursor on, followed either by a tail plan
starting where the tiling ends or by nothing when no key is left. -/
theorem Task.loop_tableDB (keys : List Int) (hnd : keys.Nodup)
    (hr : ∀ k ∈ keys, 0 ≤ k ∧ k < 2 ^ 63 - 1) :
    ∀ (fuel : Nat) (t : Task) (l : Locals),
      1 ≤ t.ChunkSize → l.stopLoop = false →
      t.chunkMin ≤ t.chunkMax + 1 →
      (keysFrom keys t.chunkMax).length < fuel →
      ∃ (ranges tl : List DataChunk) (hi : Int) (t1 : Task),
        Task.loop (tableDB keys) fuel t l = some t1 ∧
        t1.TaskManager.ChunksChannel = t.TaskManager.ChunksChannel ++ (ranges ++ tl) ∧
        contiguous t.chunkMin ranges hi ∧
        ((tl = [] ∧ ∀ k ∈ keys, k < hi) ∨
          (∃ q, tl = [q] ∧ q.IsSingleChunk = false ∧ q.IsLastChunk = true ∧ q.Min = hi)) := by
  intro fuel
  induction fuel with
  | zero => intro t l _ _ _ hf; omega
  | succ n ih =>
    intro t l hC hstop hmin hf
    rw [Task.loop_succ _ _ _ _ hstop]
    cases hq : (keysFrom keys t.chunkMax)[t.ChunkSize]? with
    | some v =>
      obtain ⟨hvk, hxv, hlen⟩ := keysFrom_get keys t.chunkMax v t.ChunkSize hC hnd hq
      have hv := hr v hvk
      have hbody : t.loopBody (tableDB keys) l
          = (({ t with chunkMax := v } : Task).AddChunk (NewDataChunk { t with chunkMax := v }),
             { l with chunkMax := v }) := by
        simp [Task.loopBody, Task.GetChunkSqlQuery, tableDB, hq]
      rw [hbody]
      obtain ⟨ranges, tl, hi, t1, hrun, hch, hcont, htl⟩ :=
        ih (({ t with chunkMax := v } : Task).AddChunk (NewDataChunk { t with chunkMax := v }))
          { l with chunkMax := v } (by simpa [Task.AddChunk] using hC) (by simpa using hstop)
          (by simp [Task.AddChunk, wrapInt64_succ v hv.1 hv.2])
          (by simp only [Task.AddChunk]; omega)
      refine ⟨NewDataChunk { t with chunkMax := v } :: ranges, tl, hi, t1, hrun, ?_, ?_, htl⟩
      · rw [hch]
        simp [Task.AddChunk, TaskManager.AddChunk]
      · refine ⟨rfl, rfl, rfl, ?_, ?_⟩
        · simp only [NewDataChunk]; omega
        · simpa [Task.AddChunk, NewDataChunk, wrapInt64_succ v hv.1 hv.2] using hcont
    | none =>
      cases hlast : (keysFrom keys t.chunkMin).head? with
      | some v =>
        have hbody : t.loopBody (tableDB keys) l
            = (t.AddChunk (NewDataLastChunk t), { l with chunkMin := v, stopLoop := true }) := by
          simp [Task.loopBody, Task.GetChunkSqlQuery, Task.GetLastChunkSqlQuery, tableDB, hq,
            hlast]
        rw [hbody, Task.loop_stop _ _ _ _ rfl]
        refine ⟨[], [NewDataLastChunk t], t.chunkMin, _, rfl, ?_, rfl, Or.inr ⟨_, rfl, rfl, rfl, rfl⟩⟩
        simp [Task.AddChunk, TaskManager.AddChunk]
      | none =>
        have hbody : t.loopBody (tableDB keys) l = (t, { l with stopLoop := true }) := by
          simp [Task.loopBody, Task.GetChunkSqlQuery, Task.GetLastChunkSqlQuery, tableDB, hq,
            hlast]
        rw [hbody, Task.loop_stop _ _ _ _ rfl]
        exact ⟨[], [], t.chunkMin, t, rfl, by simp, rfl,
          Or.inl ⟨rfl, keysFrom_head_none keys t.chunkMin hlast⟩⟩

/-! ## Properties of the planner: tilings -/

theorem selects_range (p : DataChunk) (k : Int)
    (hs : p.IsSingleChunk = false) (hl : p.IsLastChunk = false) :
    p.selects k = true ↔ p.Min ≤ k ∧ k ≤ p.Max := by
  simp [DataChunk.selects, hs, hl]

theorem selects_tail (q : DataChunk) (k : Int)
    (hs : q.IsSingleChunk = false) (hl : q.IsLastChunk = true) :
    q.selects k = true ↔ q.Min ≤ k := by
  simp [DataChunk.selects, hs, hl]

theorem contiguous_bounds : ∀ (ps : List DataChunk) (lo hi : Int), contiguous lo ps hi →
    lo ≤ hi ∧ ∀ p ∈ ps, p.IsSingleChunk = false ∧ p.IsLastChunk = false ∧
      lo ≤ p.Min ∧ p.Max < hi := by
  intro ps
  induction ps with
  | nil =>
    intro lo hi h
    simp only [contiguous] at h
    exact ⟨le_of_eq h, fun p hp => absurd hp (List.not_mem_nil _)⟩
  | cons a ps ih =>
    intro lo hi h
    obtain ⟨hs, hl, hmin, hmax, hrest⟩ := h
    obtain ⟨hle, hall⟩ := ih _ _ hrest
    refine ⟨by omega, ?_⟩
    intro p hp
    rcases List.mem_cons.mp hp with rfl | hp
    · exact ⟨hs, hl, by omega, by omega⟩
    · obtain ⟨h1, h2, h3, h4⟩ := hall p hp
      exact ⟨h1, h2, by omega, h4⟩

theorem contiguous_pairwise : ∀ (ps : List DataChunk) (lo hi : Int), contiguous lo ps hi →
    ps.Pairwise disjointPlans := by
  intro ps
  induction ps with
  | nil => intro _ _ _; exact List.Pairwise.nil
  | cons a ps ih =>
    intro lo hi h
    obtain ⟨hs, hl, _, _, hrest⟩ := h
    refine List.Pairwise.cons ?_ (ih _ _ hrest)
    intro b hb k hk
    obtain ⟨hbs, hbl, hbmin, _⟩ := (contiguous_bounds ps _ _ hrest).2 b hb
    have h1 := (selects_range a k hs hl).mp hk.1
    have h2 := (selects_range b k hbs hbl).mp hk.2
    omega

theorem contiguous_cover : ∀ (ps : List DataChunk) (lo hi : Int), contiguous lo ps hi →
    ∀ k : Int, lo ≤ k → k < hi → ∃ p ∈ ps, p.selects k = true := by
  intro ps
  induction ps with
  | nil =>
    intro lo hi h k h1 h2
    simp only [contiguous] at h
    omega
  | cons a ps ih =>
    intro lo hi h k h1 h2
    obtain ⟨hs, hl, hmin, hmax, hrest⟩ := h
    by_cases hk : k ≤ a.Max
    · exact ⟨a, List.mem_cons_self _ _, (selects_range a k hs hl).mpr ⟨by omega, hk⟩⟩
    · obtain ⟨p, hp, hsel⟩ := ih _ _ hrest k (by omega) h2
      exact ⟨p, List.mem_cons_of_mem _ hp, hsel⟩

theorem filter_selects_le_one (k : Int) : ∀ (ps : List DataChunk), ps.Pairwise disjointPlans →
    (ps.filter (fun p => p.selects k)).length ≤ 1 := by
  intro ps
  induction ps with
  | nil => intro _; simp
  | cons a ps ih =>
    intro h
    obtain ⟨hhead, htail⟩ := List.pairwise_cons.mp h
    by_cases ha : a.selects k = true
    · have hnone : ps.filter (fun p => p.selects k) = [] := by
        apply List.filter_eq_nil_iff.mpr
        intro b hb hbk
        exact hhead b hb k ⟨ha, hbk⟩
      simp [List.filter_cons, ha, hnone]
    · have := ih htail
      simpa [List.filter_cons, ha] using this

theorem filter_selects_pos (k : Int) (ps : List DataChunk)
    (h : ∃ p ∈ ps, p.selects k = true) :
    1 ≤ (ps.filter (fun p => p.selects k)).length := by
  obtain ⟨p, hp, hsel⟩ := h
  have : p ∈ ps.filter (fun p => p.selects k) := List.mem_filter.mpr ⟨hp, hsel⟩
  exact List.length_pos_of_mem this

/-- The shape of a ranged run on a table with distinct keys in
`[0, 2^63 - 1)`: a tiling by range plans from 0 on, then at most one tail plan
starting where the tiling ends; without a tail plan no key is left. -/
theorem CreateChunks_tableDB (keys : List Int) (t : Task) (fuel : Nat)
    (hkey : t.Table.GetPrimaryOrUniqueKey.1 ≠ "") (hC : 1 ≤ t.ChunkSize)
    (hnd : keys.Nodup) (hr : ∀ k ∈ keys, 0 ≤ k ∧ k < 2 ^ 63 - 1)
    (hfuel : keys.length < fuel) :
    ∃ (ranges tl : List DataChunk) (hi : Int),
      t.emitted (tableDB keys) fuel = some (ranges ++ tl) ∧
      contiguous 0 ranges hi ∧
      ((tl = [] ∧ ∀ k ∈ keys, k < hi) ∨
        (∃ q, tl = [q] ∧ q.IsSingleChunk = false ∧ q.IsLastChunk = true ∧ q.Min = hi)) := by
  have hlen : (keysFrom keys 0).length < fuel := by
    have h1 : (keysFrom keys 0).length ≤ (keys.insertionSort (· ≤ ·)).length :=
      List.length_filter_le _ _
    rw [List.length_insertionSort] at h1
    omega
  obtain ⟨ranges, tl, hi, t1, hrun, hch, hcont, htl⟩ :=
    Task.loop_tableDB keys hnd hr fuel
      { t with TotalChunks := 0, chunkMax := 0, chunkMin := 0,
               Table := t.Table.GetPrimaryOrUniqueKey.2 }
      { chunkMax := 0, chunkMin := 0, stopLoop := false } hC rfl (by simp) hlen
  refine ⟨ranges, tl, hi, ?_, hcont, htl⟩
  simp only [Task.emitted, Task.CreateChunks, hkey, if_false, hrun, hch]
  simp

/-! ## Properties of the planner: coverage and disjointness -/

/-- C1 (amended): for a table whose chunk-key values are distinct integers in
`[0, 2^63 - 1)` and a chunk size of at least 1, `CreateChunks` returns and
every key of the table lies in the interval of exactly one emitted plan. -/
theorem CreateChunks_covers_each_key_once (keys : List Int) (t : Task) (fuel : Nat)
    (hkey : t.Table.GetPrimaryOrUniqueKey.1 ≠ "") (hC : 1 ≤ t.ChunkSize)
    (hnd : keys.Nodup) (hr : ∀ k ∈ keys, 0 ≤ k ∧ k < 2 ^ 63 - 1)
    (hfuel : keys.length < fuel) :
    ∃ plans, t.emitted (tableDB keys) fuel = some plans ∧
      ∀ k ∈ keys, (plans.filter (fun p => p.selects k)).length = 1 := by
  obtain ⟨ranges, tl, hi, hrun, hcont, htl⟩ :=
    CreateChunks_tableDB keys t fuel hkey hC hnd hr hfuel
  refine ⟨ranges ++ tl, hrun, ?_⟩
  intro k hk
  have hk0 := (hr k hk).1
  have hb := contiguous_bounds ranges 0 hi hcont
  have hpw : (ranges ++ tl).Pairwise disjointPlans := by
    rcases htl with ⟨rfl, _⟩ | ⟨q, rfl, hqs, hql, hqmin⟩
    · simpa using contiguous_pairwise ranges 0 hi hcont
    · refine List.pairwise_append.mpr ⟨contiguous_pairwise ranges 0 hi hcont,
        List.pairwise_singleton _ _, ?_⟩
      intro a ha b hb2 j hj
      rw [List.mem_singleton.mp hb2] at hj
      obtain ⟨has, hal, _, hamax⟩ := hb.2 a ha
      have h1 := (selects_range a j has hal).mp hj.1
      have h2 := (selects_tail q j hqs hql).mp hj.2
      omega
  have hex : ∃ p ∈ ranges ++ tl, p.selects k = true := by
    by_cases hlt : k < hi
    · obtain ⟨p, hp, hsel⟩ := contiguous_cover ranges 0 hi hcont k hk0 hlt
      exact ⟨p, List.mem_append_left _ hp, hsel⟩
    · rcases htl with ⟨_, hall⟩ | ⟨q, rfl, hqs, hql, hqmin⟩
      · exact absurd (hall k hk) hlt
      · exact ⟨q, List.mem_append_right _ (List.mem_singleton_self q),
          (selects_tail q k hqs hql).mpr (by omega)⟩
  have h1 := filter_selects_le_one k _ hpw
  have h2 := filter_selects_pos k _ hex
  omega

/-- C1 (amended), on the keys 1..10 with chunk size 3. -/
theorem CreateChunks_covers_each_key_once_witness :
    ∃ plans, (exampleTask 3).emitted (tableDB [1, 2, 3, 4, 5, 6, 7, 8, 9, 10]) 11 = some plans ∧
      ∀ k ∈ [1, 2, 3, 4, 5, 6, 7, 8, 9, 10],
        (plans.filter (fun p => p.selects k)).length = 1 :=
  CreateChunks_covers_each_key_once [1, 2, 3, 4, 5, 6, 7, 8, 9, 10] (exampleTask 3) 11
    (by decide) (by decide) (by decide) (by decide) (by decide)

/-- C1 fails as stated: on the distinct keys -2, 1, 2, 3 with chunk size 2 the
only plan is the range [0, 3] and the key -2 lies in no plan; on the distinct
keys 5 and 2^63 - 1 with chunk size 1 the key 5 lies in two plans. -/
theorem CreateChunks_key_not_covered_once :
    ([-2, 1, 2, 3] : List Int).Nodup ∧
    (∃ plans, (exampleTask 2).emitted (tableDB [-2, 1, 2, 3]) 5 = some plans ∧
      (plans.filter (fun p => p.selects (-2))).length = 0) ∧
    ([5, 9223372036854775807] : List Int).Nodup ∧
    (∃ plans, (exampleTask 1).emitted (tableDB [5, 9223372036854775807]) 5 = some plans ∧
      (plans.filter (fun p => p.selects 5)).length = 2) := by
  refine ⟨by decide, ⟨_, rfl, by decide⟩, by decide, ⟨_, rfl, by decide⟩⟩

/-- C2 (amended): for a table whose chunk-key values are distinct integers in
`[0, 2^63 - 1)` and a chunk size of at least 1, `CreateChunks` returns plans
none of which is a single plan, any two of which select disjoint sets of keys
(range against range and tail against range alike), and a tail plan selects
every key of the table that no range plan selects. -/
theorem CreateChunks_plans_disjoint (keys : List Int) (t : Task) (fuel : Nat)
    (hkey : t.Table.GetPrimaryOrUniqueKey.1 ≠ "") (hC : 1 ≤ t.ChunkSize)
    (hnd : keys.Nodup) (hr : ∀ k ∈ keys, 0 ≤ k ∧ k < 2 ^ 63 - 1)
    (hfuel : keys.length < fuel) :
    ∃ plans, t.emitted (tableDB keys) fuel = some plans ∧
      (∀ p ∈ plans, p.IsSingleChunk = false) ∧
      plans.Pairwise
        (fun a b => ∀ k : Int, ¬ (a.selects k = true ∧ b.selects k = true)) ∧
      (∀ q ∈ plans, q.IsLastChunk = true → ∀ k ∈ keys,
        (∀ r ∈ plans, r.IsLastChunk = false → r.selects k = false) →
          q.selects k = true) := by
  obtain ⟨ranges, tl, hi, hrun, hcont, htl⟩ :=
    CreateChunks_tableDB keys t fuel hkey hC hnd hr hfuel
  have hb := contiguous_bounds ranges 0 hi hcont
  refine ⟨ranges ++ tl, hrun, ?_, ?_, ?_⟩
  · intro p hp
    rcases List.mem_append.mp hp with hp | hp
    · exact (hb.2 p hp).1
    · rcases htl with ⟨rfl, _⟩ | ⟨q, rfl, hqs, _, _⟩
      · exact absurd hp (List.not_mem_nil _)
      · rw [List.mem_singleton.mp hp]; exact hqs
  · rcases htl with ⟨rfl, _⟩ | ⟨q, rfl, hqs, hql, hqmin⟩
    · rw [List.append_nil]
      exact contiguous_pairwise ranges 0 hi hcont
    · refine List.pairwise_append.mpr ⟨contiguous_pairwise ranges 0 hi hcont,
        List.pairwise_singleton _ _, ?_⟩
      intro a ha b hb2 j hj
      rw [List.mem_singleton.mp hb2] at hj
      obtain ⟨has, hal, _, hamax⟩ := hb.2 a ha
      have h1 := (selects_range a j has hal).mp hj.1
      have h2 := (selects_tail q j hqs hql).mp hj.2
      omega
  · intro q hq hql k hk hnone
    rcases List.mem_append.mp hq with hq | hq
    · have := (hb.2 q hq).2.1
      rw [hql] at this
      exact absurd this (by decide)
    · rcases htl with ⟨rfl, _⟩ | ⟨q2, rfl, hqs, _, hqmin⟩
      · exact absurd hq (List.not_mem_nil _)
      · rw [List.mem_singleton.mp hq]
        have hq2l : q2.IsLastChunk = true := by rw [← List.mem_singleton.mp hq]; exact hql
        apply (selects_tail q2 k hqs hq2l).mpr
        by_contra hlt
        obtain ⟨p, hp, hsel⟩ :=
          contiguous_cover ranges 0 hi hcont k (hr k hk).1 (by omega)
        have := hnone p (List.mem_append_left _ hp) (hb.2 p hp).2.1
        rw [this] at hsel
        exact absurd hsel (by decide)

/-- C2 (amended), on the keys 1..10 with chunk size 4. -/
theorem CreateChunks_plans_disjoint_witness :
    ∃ plans, (exampleTask 4).emitted (tableDB [10, 9, 8, 7, 6, 5, 4, 3, 2, 1]) 11 = some plans ∧
      (∀ p ∈ plans, p.IsSingleChunk = false) ∧
      plans.Pairwise
        (fun a b => ∀ k : Int, ¬ (a.selects k = true ∧ b.selects k = true)) ∧
      (∀ q ∈ plans, q.IsLastChunk = true → ∀ k ∈ [10, 9, 8, 7, 6, 5, 4, 3, 2, 1],
        (∀ r ∈ plans, r.IsLastChunk = false → r.selects k = false) →
          q.selects k = true) :=
  CreateChunks_plans_disjoint [10, 9, 8, 7, 6, 5, 4, 3, 2, 1] (exampleTask 4) 11
    (by decide) (by decide) (by decide) (by decide) (by decide)

/-- C2 fails as stated: on the distinct keys -1 and 5 with chunk size 5 the
only plan is the tail plan from 0 on, and the key -1, which no range plan
contains, is not in the tail either; on the distinct keys 5 and 2^63 - 1 with
chunk size 1 the range plan and the tail plan both contain the key 5. -/
theorem CreateChunks_tail_not_complement :
    (∃ q, (exampleTask 5).emitted (tableDB [-1, 5]) 5 = some [q] ∧
      q.IsLastChunk = true ∧ q.Min = 0 ∧ q.selects (-1) = false) ∧
    (∃ r q, (exampleTask 1).emitted (tableDB [5, 9223372036854775807]) 5 = some [r, q] ∧
      r.IsLastChunk = false ∧ q.IsLastChunk = true ∧
      r.selects 5 = true ∧ q.selects 5 = true) := by
  refine ⟨⟨_, rfl, by decide⟩, ⟨_, _, rfl, by decide⟩⟩

/-! ## Properties of the table descriptor -/

theorem Table.getData_fields (rows : List (String × String)) : ∀ (t : Table),
    (rows.foldl Table.getData.step t).primaryKey
        = t.primaryKey ++ (rows.filter (fun r => r.2 = "PRI")).map Prod.fst ∧
    (rows.foldl Table.getData.step t).uniqueKey
        = t.uniqueKey ++ ((rows.filter (fun r => r.2 ≠ "PRI")).filter
            (fun r => r.2 = "UNI")).map Prod.fst ∧
    (rows.foldl Table.getData.step t).keyForChunks = t.keyForChunks := by
  induction rows with
  | nil => intro t; simp
  | cons r rs ih =>
    intro t
    rw [List.foldl_cons]
    obtain ⟨h1, h2, h3⟩ := ih (Table.getData.step t r)
    rw [h1, h2, h3]
    unfold Table.getData.step
    by_cases hp : r.2 = "PRI"
    · simp [hp, List.filter_cons]
    · by_cases hu : r.2 = "UNI"
      · simp [hp, hu, List.filter_cons]
      · simp [hp, hu, List.filter_cons]

/-- C11 (amended): for a descriptor populated from `(column, key)` rows with
non-empty column names, `GetPrimaryOrUniqueKey` returns a non-empty string if
and only if exactly one column is declared PRI or at least one column is
declared UNI. -/
theorem GetPrimaryOrUniqueKey_nonempty_iff (schema name createSQL : String)
    (rows : List (String × String)) (hne : ∀ r ∈ rows, r.1 ≠ "") :
    (NewTable schema name createSQL rows).GetPrimaryOrUniqueKey.1 ≠ "" ↔
      ((rows.filter (fun r => r.2 = "PRI")).length = 1 ∨ ∃ r ∈ rows, r.2 = "UNI") := by
  obtain ⟨h1, h2, h3⟩ := Table.getData_fields rows
    { name := name, schema := schema, primaryKey := [], uniqueKey := [], keyForChunks := "",
      CreateTableSQL := createSQL }
  simp only [List.nil_append] at h1 h2 h3
  have hP : ∀ k ∈ (rows.filter (fun r => r.2 = "PRI")).map Prod.fst, k ≠ "" := by
    intro k hk
    obtain ⟨r, hr, rfl⟩ := List.mem_map.mp hk
    exact hne r (List.mem_filter.mp hr).1
  have hU : ∀ k ∈ ((rows.filter (fun r => r.2 ≠ "PRI")).filter
      (fun r => r.2 = "UNI")).map Prod.fst, k ≠ "" := by
    intro k hk
    obtain ⟨r, hr, rfl⟩ := List.mem_map.mp hk
    exact hne r (List.mem_filter.mp (List.mem_filter.mp hr).1).1
  have hUex : (∃ r ∈ rows, r.2 = "UNI") ↔
      ((rows.filter (fun r => r.2 ≠ "PRI")).filter (fun r => r.2 = "UNI")).map Prod.fst ≠ [] := by
    constructor
    · rintro ⟨r, hr, hu⟩
      have : r ∈ (rows.filter (fun r => r.2 ≠ "PRI")).filter (fun r => r.2 = "UNI") := by
        simp [List.mem_filter, hr, hu]
      intro hnil
      rw [List.map_eq_nil_iff] at hnil
      rw [hnil] at this
      exact absurd this (List.not_mem_nil _)
    · intro hnn
      rw [Ne, List.map_eq_nil_iff] at hnn
      obtain ⟨r, hr⟩ := List.exists_mem_of_ne_nil _ hnn
      have h4 := List.mem_filter.mp hr
      exact ⟨r, (List.mem_filter.mp h4.1).1, by simpa using h4.2⟩
  have hlen : ((rows.filter (fun r => r.2 = "PRI")).map Prod.fst).length
      = (rows.filter (fun r => r.2 = "PRI")).length := List.length_map _ _
  rw [hUex, ← hlen]
  unfold NewTable Table.getData Table.GetPrimaryOrUniqueKey
  rw [h3, h1, h2]
  generalize (rows.filter (fun r => r.2 = "PRI")).map Prod.fst = P at hP ⊢
  generalize ((rows.filter (fun r => r.2 ≠ "PRI")).filter
      (fun r => r.2 = "UNI")).map Prod.fst = U at hU ⊢
  rcases P with _ | ⟨k, _ | ⟨k2, ks⟩⟩
  · rcases U with _ | ⟨u, us⟩
    · simp
    · simpa using hU u (List.mem_cons_self _ _)
  · simpa using hP k (List.mem_cons_self _ _)
  · rcases U with _ | ⟨u, us⟩
    · simp
    · simpa using hU u (List.mem_cons_self _ _)

/-- C11 (amended), on a table with primary key `id` and unique column `uuid`. -/
theorem GetPrimaryOrUniqueKey_nonempty_iff_witness :
    (NewTable "db" "t" "" [("id", "PRI"), ("uuid", "UNI"), ("ts", "MUL")]).GetPrimaryOrUniqueKey.1
        ≠ "" ↔
      ((([("id", "PRI"), ("uuid", "UNI"), ("ts", "MUL")] : List (String × String)).filter
          (fun r => r.2 = "PRI")).length = 1 ∨
        ∃ r ∈ ([("id", "PRI"), ("uuid", "UNI"), ("ts", "MUL")] : List (String × String)),
          r.2 = "UNI") :=
  GetPrimaryOrUniqueKey_nonempty_iff "db" "t" ""
    [("id", "PRI"), ("uuid", "UNI"), ("ts", "MUL")] (by decide)

/-- C11 fails as stated: a table whose only key columns are the two PRI
columns `a` and `b` (a composite primary key) gets the empty chunk key. -/
theorem GetPrimaryOrUniqueKey_composite_primary_empty :
    (NewTable "db" "t" "" [("a", "PRI"), ("b", "PRI")]).GetPrimaryOrUniqueKey.1 = "" ∧
    (∃ r ∈ ([("a", "PRI"), ("b", "PRI")] : List (String × String)),
      r.2 = "PRI" ∨ r.2 = "UNI") := by
  refine ⟨by decide, ⟨("a", "PRI"), by decide, by decide⟩⟩

/-- C12: with no chunk key memoized yet, `GetPrimaryOrUniqueKey` returns the
primary-key column when the primary-key list has exactly one column,
otherwise the first unique-key column when there is one, otherwise the empty
string; a second call returns the same value. -/
theorem GetPrimaryOrUniqueKey_selection (t : Table) (hmemo : t.keyForChunks = "") :
    (∀ k, t.primaryKey = [k] → t.GetPrimaryOrUniqueKey.1 = k) ∧
    (t.primaryKey.length ≠ 1 → ∀ u us, t.uniqueKey = u :: us →
      t.GetPrimaryOrUniqueKey.1 = u) ∧
    (t.primaryKey.length ≠ 1 → t.uniqueKey = [] → t.GetPrimaryOrUniqueKey.1 = "") ∧
    t.GetPrimaryOrUniqueKey.2.GetPrimaryOrUniqueKey.1 = t.GetPrimaryOrUniqueKey.1 := by
  refine ⟨?_, ?_, ?_, Table.GetPrimaryOrUniqueKey_again t⟩
  · intro k hk
    simp [Table.GetPrimaryOrUniqueKey, hmemo, hk]
  · intro hlen u us hu
    unfold Table.GetPrimaryOrUniqueKey
    rcases hp : t.primaryKey with _ | ⟨k, _ | ⟨k2, ks⟩⟩
    · simp [hmemo, hu]
    · simp [hp] at hlen
    · simp [hmemo, hu]
  · intro hlen hu
    unfold Table.GetPrimaryOrUniqueKey
    rcases hp : t.primaryKey with _ | ⟨k, _ | ⟨k2, ks⟩⟩
    · simp [hmemo, hu]
    · simp [hp] at hlen
    · simp [hmemo, hu]

/-- C12, on a table with a composite primary key and the unique columns
`uuid` and `code`: the first unique column is chosen, twice. -/
theorem GetPrimaryOrUniqueKey_selection_witness :
    (Table.GetPrimaryOrUniqueKey
        { name := "t", schema := "db", primaryKey := ["a", "b"],
          uniqueKey := ["uuid", "code"], keyForChunks := "" }).1 = "uuid" ∧
    (Table.GetPrimaryOrUniqueKey
        (Table.GetPrimaryOrUniqueKey
          { name := "t", schema := "db", primaryKey := ["a", "b"],
            uniqueKey := ["uuid", "code"], keyForChunks := "" }).2).1 = "uuid" :=
  have h := GetPrimaryOrUniqueKey_selection
    { name := "t", schema := "db", primaryKey := ["a", "b"],
      uniqueKey := ["uuid", "code"], keyForChunks := "" } rfl
  ⟨h.2.1 (by decide) "uuid" ["code"] rfl, h.2.2.2.trans (h.2.1 (by decide) "uuid" ["code"] rfl)⟩

/-! ## Properties of the planner: a failing boundary probe -/

theorem Task.loop_errOther (db : DB) : ∀ (fuel : Nat) (t : Task) (l : Locals),
    l.stopLoop = false → l.chunkMax = t.chunkMax →
    db (PlannerQuery.chunk t.chunkMax t.ChunkSize) = ScanResult.errOther →
    Task.loop db fuel t l = none := by
  intro fuel
  induction fuel with
  | zero =>
    intro t l hs _ _
    unfold Task.loop
    simp [hs]
  | succ n ih =>
    intro t l hs hmax herr
    rw [Task.loop_succ _ _ _ _ hs]
    have hbody : t.loopBody db l
        = (({ t with chunkMax := l.chunkMax } : Task).AddChunk
            (NewDataChunk { t with chunkMax := l.chunkMax }), l) := by
      simp [Task.loopBody, Task.GetChunkSqlQuery, herr]
    rw [hbody]
    apply ih _ _ hs
    · simp [Task.AddChunk]
    · simpa [Task.AddChunk, hmax] using herr

/-- C20: when the boundary probe fails with an error other than "no rows" the
planner neither stops nor reports a fatal error: with the database
`lostConnectionDB` the run never returns, whatever the bound on its
iterations, and after three iterations it has sent the range plan [0, 4] and
then, on the failed probes, the plans [5, 4] twice, numbered 1 and 2. -/
theorem CreateChunks_probe_error_goes_on :
    (∀ fuel : Nat, (exampleTask 3).CreateChunks lostConnectionDB fuel = Run.outOfFuel) ∧
    ((Task.loopSteps lostConnectionDB 3
        ({ exampleTask 3 with Table := (exampleTask 3).Table.GetPrimaryOrUniqueKey.2 },
         { chunkMax := 0, chunkMin := 0, stopLoop := false })).1.TaskManager.ChunksChannel.map
        (fun p => (p.Min, p.Max, p.Sequence, p.IsLastChunk)))
      = [(0, 4, 0, false), (5, 4, 1, false), (5, 4, 2, false)] ∧
    (Task.loopSteps lostConnectionDB 3
        ({ exampleTask 3 with Table := (exampleTask 3).Table.GetPrimaryOrUniqueKey.2 },
         { chunkMax := 0, chunkMin := 0, stopLoop := false })).2.stopLoop = false := by
  refine ⟨?_, by decide, by decide⟩
  intro fuel
  have hkey : (exampleTask 3).Table.GetPrimaryOrUniqueKey.1 ≠ "" := by decide
  have hloop : Task.loop lostConnectionDB fuel
      { exampleTask 3 with TotalChunks := 0, chunkMax := 0, chunkMin := 0,
                           Table := (exampleTask 3).Table.GetPrimaryOrUniqueKey.2 }
      { chunkMax := 0, chunkMin := 0, stopLoop := false } = none := by
    cases fuel with
    | zero => unfold Task.loop; simp
    | succ n =>
      rw [Task.loop_succ _ _ _ _ rfl]
      apply Task.loop_errOther
      · decide
      · decide
      · decide
  simp only [Task.CreateChunks, hkey, if_false, hloop]

/-! ## Properties of the option parsers -/

/-- C17: the `get-slave-status` key of the `[go-dump]` section is stored in
`LockTables`: whatever the options held, the section `get-slave-status = true`
leaves `GetSlaveStatus` as it was and sets `LockTables` to true, and
`get-slave-status = false` on the defaults turns `LockTables` off and leaves
`GetSlaveStatus` false. -/
theorem parseIniOptions_get_slave_status :
    (∀ d : DumpOptions,
      parseIniOptions (fun _ => false) [("get-slave-status", "true")] d
        = Run.done { d with LockTables := true }) ∧
    (∀ d : DumpOptions,
      parseIniOptions (fun _ => false) [("get-slave-status", "false")] d
        = Run.done { d with LockTables := false }) ∧
    GetDumpOptions.LockTables = true ∧ GetDumpOptions.GetSlaveStatus = false ∧
    ({ GetDumpOptions with LockTables := false } : DumpOptions).GetSlaveStatus = false := by
  refine ⟨fun d => ?_, fun d => ?_, rfl, rfl, rfl⟩
  · have hb : ParseBool "true" = some true := by decide
    simp [parseIniOptions, parseIniOptions.key, hb]
  · have hb : ParseBool "false" = some false := by decide
    simp [parseIniOptions, parseIniOptions.key, hb]

theorem take_indexOf (sep : Char) (p : List Char) :
    p.take (p.indexOf sep) = p.takeWhile (fun c => c ≠ sep) ∧
    p.drop (p.indexOf sep + 1) = (p.dropWhile (fun c => c ≠ sep)).drop 1 := by
  induction p with
  | nil => simp
  | cons b t ih =>
    by_cases hb : b = sep
    · subst hb
      simp [List.indexOf_cons_self, List.takeWhile_cons, List.dropWhile_cons]
    · rw [List.indexOf_cons_ne _ hb]
      simp [List.takeWhile_cons, List.dropWhile_cons, hb, ih.1, ih.2]

theorem splitN2_eq (sep : Char) (p : List Char) :
    splitN2 sep p
      = if sep ∈ p then
          [p.takeWhile (fun c => c ≠ sep), (p.dropWhile (fun c => c ≠ sep)).drop 1]
        else [p] := by
  unfold splitN2
  by_cases h : sep ∈ p
  · have hlt : p.indexOf sep < p.length := List.indexOf_lt_length.mpr h
    simp only [hlt, h, if_true]
    rw [(take_indexOf sep p).1, (take_indexOf sep p).2]
  · have hlt : ¬ p.indexOf sep < p.length := fun hc => h (List.indexOf_lt_length.mp hc)
    simp only [hlt, h, if_false]

/-- What folding a step over the parts does, when each step either stores the
binding of its part (under `norm` of the table name) or does nothing. -/
theorem foldl_where (norm : String → String) (step : DumpOptions → List Char → DumpOptions)
    (hstep : ∀ (d : DumpOptions) (part : List Char),
      step d part =
        if ':' ∈ TrimSpace part then
          { d with
            WhereConditions := mapSet d.WhereConditions
              (norm (String.mk ((TrimSpace part).takeWhile (fun c => c ≠ ':'))))
              (String.mk (((TrimSpace part).dropWhile (fun c => c ≠ ':')).drop 1)) }
        else d) :
    ∀ (parts : List (List Char)) (d : DumpOptions),
      (parts.foldl step d).GlobalWhereCondition = d.GlobalWhereCondition ∧
      ∀ key, (parts.foldl step d).WhereConditions key =
        match findLast (((parts.map TrimSpace).filterMap (fun p =>
            if ':' ∈ p then
              some (String.mk (p.takeWhile (fun c => c ≠ ':')),
                    String.mk ((p.dropWhile (fun c => c ≠ ':')).drop 1))
            else none)).map (fun b => (norm b.1, b.2))) key with
        | some v => some v
        | none => d.WhereConditions key := by
  intro parts
  induction parts with
  | nil => intro d; simp [findLast]
  | cons part rest ih =>
    intro d
    rw [List.foldl_cons, hstep]
    by_cases hc : ':' ∈ TrimSpace part
    · simp only [hc, if_true]
      obtain ⟨hg, hw⟩ := ih
        { d with
          WhereConditions := mapSet d.WhereConditions
            (norm (String.mk ((TrimSpace part).takeWhile (fun c => c ≠ ':'))))
            (String.mk (((TrimSpace part).dropWhile (fun c => c ≠ ':')).drop 1)) }
      refine ⟨hg, fun key => ?_⟩
      rw [hw key]
      simp only [List.map_cons, List.filterMap_cons, hc, if_true, findLast]
      cases findLast _ key with
      | some x => rfl
      | none =>
        simp only [mapSet]
        by_cases hk : key = norm (String.mk ((TrimSpace part).takeWhile (fun c => c ≠ ':')))
        · rw [if_pos hk, if_pos hk.symm]
        · rw [if_neg hk, if_neg (fun h => hk h.symm)]
    · simp only [hc, if_false]
      obtain ⟨hg, hw⟩ := ih d
      refine ⟨hg, fun key => ?_⟩
      rw [hw key]
      simp only [List.map_cons, List.filterMap_cons, hc, if_false]

theorem parseWhereCondition_step_eq (d : DumpOptions) (part : List Char) :
    parseWhereCondition.step d part =
      if ':' ∈ TrimSpace part then
        { d with
          WhereConditions := mapSet d.WhereConditions
            (id (String.mk ((TrimSpace part).takeWhile (fun c => c ≠ ':'))))
            (String.mk (((TrimSpace part).dropWhile (fun c => c ≠ ':')).drop 1)) }
      else d := by
  unfold parseWhereCondition.step
  rw [splitN2_eq]
  by_cases hc : ':' ∈ TrimSpace part <;> simp [hc]

theorem parseIniOptions_whereStep_eq (d : DumpOptions) (part : List Char) :
    parseIniOptions.whereStep d part =
      if ':' ∈ TrimSpace part then
        { d with
          WhereConditions := mapSet d.WhereConditions
            (normalizeTableName (String.mk ((TrimSpace part).takeWhile (fun c => c ≠ ':'))))
            (String.mk (((TrimSpace part).dropWhile (fun c => c ≠ ':')).drop 1)) }
      else d := by
  unfold parseIniOptions.whereStep
  rw [splitN2_eq]
  by_cases hc : ':' ∈ TrimSpace part <;> simp [hc]

/-- C16: `parseWhereCondition` stores a value without `:` in
`GlobalWhereCondition` and changes nothing else; for a value with `:` it leaves
`GlobalWhereCondition` alone and a table then looks up the text after the
first `:` of the last comma-separated, trimmed part whose text before the
first `:` is that table (the former entry when there is no such part). The
`where` key of the INI section does the same with the table names passed
through `normalizeTableName`. -/
theorem parseWhereCondition_spec (w : String) (d : DumpOptions) :
    (':' ∉ w.data → parseWhereCondition w d = { d with GlobalWhereCondition := w }) ∧
    (':' ∈ w.data →
      (parseWhereCondition w d).GlobalWhereCondition = d.GlobalWhereCondition ∧
      ∀ key, (parseWhereCondition w d).WhereConditions key =
        match findLast (whereBindings w) key with
        | some v => some v
        | none => d.WhereConditions key) ∧
    (∀ flagSet : String → Bool, flagSet "where" = false →
      ∃ d1, parseIniOptions flagSet [("where", w)] d = Run.done d1 ∧
        (':' ∉ w.data → d1 = { d with GlobalWhereCondition := w }) ∧
        (':' ∈ w.data →
          d1.GlobalWhereCondition = d.GlobalWhereCondition ∧
          ∀ key, d1.WhereConditions key =
            match findLast ((whereBindings w).map (fun b => (normalizeTableName b.1, b.2)))
                key with
            | some v => some v
            | none => d.WhereConditions key)) := by
  refine ⟨?_, ?_, ?_⟩
  · intro h
    simp [parseWhereCondition, h]
  · intro h
    have hf := foldl_where id parseWhereCondition.step parseWhereCondition_step_eq
      (splitChar ',' w.data) d
    simp only [parseWhereCondition, h, if_true]
    refine ⟨hf.1, fun key => ?_⟩
    rw [hf.2 key]
    simp [whereBindings]
  · intro flagSet hflag
    by_cases h : ':' ∈ w.data
    · refine ⟨(splitChar ',' w.data).foldl parseIniOptions.whereStep d, ?_,
        fun hn => absurd h hn, fun _ => ?_⟩
      · simp [parseIniOptions, parseIniOptions.key, hflag, h]
      · exact foldl_where normalizeTableName parseIniOptions.whereStep
          parseIniOptions_whereStep_eq (splitChar ',' w.data) d
    · refine ⟨{ d with GlobalWhereCondition := w }, ?_, fun _ => rfl, fun hc => absurd hc h⟩
      simp [parseIniOptions, parseIniOptions.key, hflag, h]

/-- C16, on the value of the test: `users` gets `age > 18` and `posts` gets
`published = 1`, the global condition stays empty; and a value without `:`
becomes the global condition. -/
theorem parseWhereCondition_spec_witness :
    (parseWhereCondition "users:age > 18,posts:published = 1" GetDumpOptions).WhereConditions
        "users" = some "age > 18" ∧
    (parseWhereCondition "users:age > 18,posts:published = 1" GetDumpOptions).WhereConditions
        "posts" = some "published = 1" ∧
    (parseWhereCondition "users:age > 18,posts:published = 1"
        GetDumpOptions).GlobalWhereCondition = "" ∧
    (parseWhereCondition "status = 'active'" GetDumpOptions).GlobalWhereCondition
        = "status = 'active'" :=
  have h := (parseWhereCondition_spec "users:age > 18,posts:published = 1" GetDumpOptions).2.1
    (by decide)
  have g := (parseWhereCondition_spec "status = 'active'" GetDumpOptions).1 (by decide)
  ⟨(h.2 "users").trans (by decide), (h.2 "posts").trans (by decide), h.1,
   by rw [g]⟩

/-! ## Properties of the sink -/

/-- C14: `NewFileBuffer` never stores the descriptor it opened: for every path,
compression choice and level for which it returns a sink, `FileDescriptor` is
nil, so `Close` (every step below it succeeding) flushes, finalizes the
compressor if there is one, closes no file and returns `os.ErrInvalid`. -/
theorem Close_after_NewFileBuffer :
    ∀ (env : SinkEnv) (fileName : String) (compress : Bool) (compressLevel : Int),
      match (NewFileBuffer env fileName compress compressLevel).2 with
      | .done b =>
        b.FileDescriptor = none ∧
        b.Close { createOk := true, flushOk := true, gzipCloseOk := true, fileCloseOk := true }
          = (if compress then [SinkEvent.flush, SinkEvent.gzipClose] else [SinkEvent.flush],
             some SinkError.errInvalid)
      | _ => True := by
  intro env fileName compress compressLevel
  unfold NewFileBuffer
  cases hc : env.createOk <;> cases compress <;> simp [Buffer.Close, Buffer.closeFile]
  by_cases hl : compressLevel < -2 ∨ 9 < compressLevel
  · simp [hl]
  · simp [hl]

/-- The sinks of `out/db.t.sql`, plain and compressed: what `Close` does. -/
theorem Close_after_NewFileBuffer_example :
    NewFileBuffer { createOk := true, flushOk := true, gzipCloseOk := true, fileCloseOk := true }
        "out/db.t.sql" true 1
      = ([SinkEvent.create "out/db.t.sql.gz"],
         Run.done { Typ := "gzip", GzipWriter := true, FileDescriptor := none }) ∧
    Buffer.Close { createOk := true, flushOk := true, gzipCloseOk := true, fileCloseOk := true }
        { Typ := "gzip", GzipWriter := true, FileDescriptor := none }
      = ([SinkEvent.flush, SinkEvent.gzipClose], some SinkError.errInvalid) ∧
    Buffer.Close { createOk := true, flushOk := true, gzipCloseOk := true, fileCloseOk := true }
        { Typ := "file", GzipWriter := false, FileDescriptor := none }
      = ([SinkEvent.flush], some SinkError.errInvalid) := by
  refine ⟨by decide, by decide, by decide⟩

/-! ## Properties of the definition files -/

set_option maxRecDepth 20000

theorem fmtNoOperands_no_percent (s : List Char) (h : '%' ∉ s) :
    fmtNoOperands false s = some s := by
  induction s with
  | nil => rfl
  | cons c cs ih =>
    have hc : c ≠ '%' := fun e => h (by simp [e])
    have hcs : '%' ∉ cs := fun e => h (List.mem_cons_of_mem _ e)
    simp [fmtNoOperands, hc, ih hcs]

/-- C15: the `CREATE TABLE` text is used as a format of `fmt.Fprintf`, so a
percent sign in it is not written verbatim: for table `db.t` with the text
"CREATE TABLE `t` (`id` int, `note` text COMMENT '5% off')" the definition
file ends in "COMMENT '5%!o(MISSING)ff');\n" and differs from the text the
specification gives. -/
theorem WriteTablesSQL_percent_not_verbatim :
    TaskManager.WriteTablesSQL exampleTaskPercent.TaskManager [exampleTaskPercent] true
      = [("/db.t-definition.sql",
          some ("USE `db`;\n/*!40101 SET NAMES binary*/;\n"
            ++ "/*!40014 SET FOREIGN_KEY_CHECKS=0*/;\nDROP TABLE IF EXISTS `t`;\n"
            ++ "CREATE TABLE `t` (`id` int, `note` text COMMENT '5%!o(MISSING)ff');\n"))] ∧
    definitionFileSpec false true exampleTaskPercent.Table
      = "USE `db`;\n/*!40101 SET NAMES binary*/;\n"
          ++ "/*!40014 SET FOREIGN_KEY_CHECKS=0*/;\nDROP TABLE IF EXISTS `t`;\n"
          ++ "CREATE TABLE `t` (`id` int, `note` text COMMENT '5% off');\n" ∧
    TaskManager.WriteTablesSQL.body exampleTaskPercent.TaskManager true exampleTaskPercent
      ≠ some (definitionFileSpec false true exampleTaskPercent.Table) := by
  refine ⟨by decide, by decide, by decide⟩

/-! ## Properties of the snapshot -/

theorem createWorkers_ok (env : SnapshotEnv) : ∀ (n i : Nat),
    (∀ j, j < i + n → env.beginOk j = true) →
    createWorkers env n i = ((List.range' i n).map DbAction.beginTx, true) := by
  intro n
  induction n with
  | zero => intro i _; rfl
  | succ n ih =>
    intro i h
    have hi : env.beginOk i = true := h i (by omega)
    have hrest := ih (i + 1) (fun j hj => h j (by omega))
    simp [createWorkers, hi, hrest, List.range'_succ]

theorem createWorkers_events (env : SnapshotEnv) : ∀ (n i : Nat),
    ∀ a ∈ (createWorkers env n i).1, ∃ j, a = DbAction.beginTx j := by
  intro n
  induction n with
  | zero => intro i a ha; simp [createWorkers] at ha
  | succ n ih =>
    intro i a ha
    unfold createWorkers at ha
    by_cases hi : env.beginOk i = true
    · simp only [hi, if_true, List.mem_cons] at ha
      rcases ha with rfl | ha
      · exact ⟨i, rfl⟩
      · exact ih (i + 1) a ha
    · simp only [hi, if_false, List.mem_singleton, Bool.false_eq_true] at ha
      exact ⟨i, ha⟩

/-- C13: with `lockTables = true`, when every step succeeds, the actions
`GetTransactions` sends are the lock statement, one read-only `BeginTx` per
worker, the master-status capture if requested, the slave-status capture if
requested, and `UNLOCK TABLES`, in that order; and whatever fails, the lock
statement is first, `UNLOCK TABLES` can only be last, and every transaction
begin and capture lies between them. -/
theorem GetTransactions_order (tm : TaskManager) (tasksPool : List Task) (workers : Nat)
    (env : SnapshotEnv) (allDatabases : Bool)
    (hlock : env.lockOk = true) (hbegin : ∀ i, i < workers → env.beginOk i = true)
    (hmaster : env.masterOk = true) (hslave : env.slaveOk = true) :
    tm.GetTransactions tasksPool workers env true allDatabases
      = ([lockAction tasksPool allDatabases]
          ++ (List.range workers).map DbAction.beginTx
          ++ (if tm.GetMasterStatus then [DbAction.showMasterStatus] else [])
          ++ (if tm.GetSlaveStatus then
                [DbAction.multiMasterProbe, DbAction.showSlaveStatus env.multiMaster]
              else [])
          ++ [DbAction.unlockTables], Run.done ()) ∧
    ∀ env1 : SnapshotEnv, ∃ body closing,
      (tm.GetTransactions tasksPool workers env1 true allDatabases).1
        = lockAction tasksPool allDatabases :: (body ++ closing) ∧
      (closing = [] ∨ closing = [DbAction.unlockTables]) ∧
      ∀ a ∈ body, (∃ j, a = DbAction.beginTx j) ∨ a = DbAction.showMasterStatus ∨
        a = DbAction.multiMasterProbe ∨ a = DbAction.showSlaveStatus env1.multiMaster := by
  constructor
  · have hw := createWorkers_ok env workers 0 (by simpa using hbegin)
    simp [TaskManager.GetTransactions, hlock, hw, hmaster, hslave, List.range_eq_range']
  · intro env1
    have hev := createWorkers_events env1 workers 0
    have hb : ∀ a ∈ (createWorkers env1 workers 0).1,
        (∃ j, a = DbAction.beginTx j) ∨ a = DbAction.showMasterStatus ∨
        a = DbAction.multiMasterProbe ∨ a = DbAction.showSlaveStatus env1.multiMaster :=
      fun a ha => Or.inl (hev a ha)
    have hm : ∀ a ∈ (if tm.GetMasterStatus then [DbAction.showMasterStatus] else []),
        (∃ j, a = DbAction.beginTx j) ∨ a = DbAction.showMasterStatus ∨
        a = DbAction.multiMasterProbe ∨ a = DbAction.showSlaveStatus env1.multiMaster := by
      intro a ha
      by_cases hm : tm.GetMasterStatus = true
      · simp [hm] at ha; exact Or.inr (Or.inl ha)
      · simp [hm] at ha
    have hs : ∀ a ∈ (if tm.GetSlaveStatus then
          [DbAction.multiMasterProbe, DbAction.showSlaveStatus env1.multiMaster] else []),
        (∃ j, a = DbAction.beginTx j) ∨ a = DbAction.showMasterStatus ∨
        a = DbAction.multiMasterProbe ∨ a = DbAction.showSlaveStatus env1.multiMaster := by
      intro a ha
      by_cases hs : tm.GetSlaveStatus = true
      · simp [hs] at ha
        rcases ha with ha | ha
        · exact Or.inr (Or.inr (Or.inl ha))
        · exact Or.inr (Or.inr (Or.inr ha))
      · simp [hs] at ha
    simp only [TaskManager.GetTransactions, if_true]
    generalize (if tm.GetMasterStatus then [DbAction.showMasterStatus] else []) = M at hm ⊢
    generalize (if tm.GetSlaveStatus then
        [DbAction.multiMasterProbe, DbAction.showSlaveStatus env1.multiMaster] else []) = S
      at hs ⊢
    have hbm : ∀ a ∈ (createWorkers env1 workers 0).1 ++ M,
        (∃ j, a = DbAction.beginTx j) ∨ a = DbAction.showMasterStatus ∨
        a = DbAction.multiMasterProbe ∨ a = DbAction.showSlaveStatus env1.multiMaster := by
      intro a ha
      rcases List.mem_append.mp ha with ha | ha
      · exact hb a ha
      · exact hm a ha
    have hbms : ∀ a ∈ (createWorkers env1 workers 0).1 ++ M ++ S,
        (∃ j, a = DbAction.beginTx j) ∨ a = DbAction.showMasterStatus ∨
        a = DbAction.multiMasterProbe ∨ a = DbAction.showSlaveStatus env1.multiMaster := by
      intro a ha
      rcases List.mem_append.mp ha with ha | ha
      · exact hbm a ha
      · exact hs a ha
    split_ifs with h1 h2 h3 h4
    · exact ⟨[], [], by simp, Or.inl rfl, by simp⟩
    · exact ⟨(createWorkers env1 workers 0).1, [DbAction.unlockTables], by simp,
        Or.inr rfl, hb⟩
    · exact ⟨(createWorkers env1 workers 0).1 ++ M, [], by simp, Or.inl rfl, hbm⟩
    · exact ⟨(createWorkers env1 workers 0).1 ++ M ++ S, [], by simp, Or.inl rfl, hbms⟩
    · exact ⟨(createWorkers env1 workers 0).1 ++ M ++ S, [DbAction.unlockTables], by simp,
        Or.inr rfl, hbms⟩

/-- C13, with two workers, the master-status capture and no slave-status
capture, on the tables of one task. -/
theorem GetTransactions_order_witness :
    (TaskManager.GetTransactions
        { TablesWithoutPKOption := "error", ChunksChannel := [], TotalChunks := 0, Queue := 0,
          GetMasterStatus := true }
        [exampleTask 10] 2 healthyEnv true false).1
      = [DbAction.lockTables "LOCK TABLES  `db`.`t` READ", DbAction.beginTx 0,
         DbAction.beginTx 1, DbAction.showMasterStatus, DbAction.unlockTables] :=
  (congrArg Prod.fst
    (GetTransactions_order
      { TablesWithoutPKOption := "error", ChunksChannel := [], TotalChunks := 0, Queue := 0,
        GetMasterStatus := true }
      [exampleTask 10] 2 healthyEnv false rfl (fun _ _ => rfl) rfl rfl).1).trans (by decide)

/-! ## Properties of the queue counter -/

/-- C18: the worker's receive that observes the closed channel also
decrements `Queue`: from any counter `q`, with nothing in the closed channel,
the step leaves both counts as they are and makes `Queue` one less; so after
one plan is enqueued and dequeued and the worker has seen the close, `Queue`
is -1 while enqueued minus dequeued is 0, and with two workers it ends at -2. -/
theorem Queue_after_closed_receive :
    (∀ (q : Int) (e d : Nat),
      Pipeline.step
          { tm := { TablesWithoutPKOption := "error", ChunksChannel := [], TotalChunks := 0,
                    Queue := q },
            closed := true, enqueued := e, dequeued := d }
          PipelineStep.workerReceive
        = some { tm := { TablesWithoutPKOption := "error", ChunksChannel := [],
                         TotalChunks := 0, Queue := wrapInt64 (q - 1) },
                 closed := true, enqueued := e, dequeued := d }) ∧
    (Pipeline.run { tm := exampleManager [], closed := false, enqueued := 0, dequeued := 0 }
        [PipelineStep.addChunk (exampleTask 10) (exampleRange 0 0 4),
         PipelineStep.workerReceive, PipelineStep.close, PipelineStep.workerReceive]).map
        (fun s => (s.tm.Queue, s.enqueued, s.dequeued, s.tm.ChunksChannel))
      = some (-1, 1, 1, []) ∧
    (Pipeline.run { tm := exampleManager [], closed := false, enqueued := 0, dequeued := 0 }
        [PipelineStep.addChunk (exampleTask 10) (exampleRange 0 0 4),
         PipelineStep.workerReceive, PipelineStep.close, PipelineStep.workerReceive,
         PipelineStep.workerReceive]).map
        (fun s => (s.tm.Queue, s.enqueued, s.dequeued, s.tm.ChunksChannel))
      = some (-2, 1, 1, []) := by
  refine ⟨fun q e d => rfl, by decide, by decide⟩

/-! ## Properties of the worker's statements -/

theorem stmtOpenAfter_append (a b : List WorkerEvent) : ∀ o : Bool,
    stmtOpenAfter o (a ++ b) = (stmtOpenAfter o a).bind (fun o1 => stmtOpenAfter o1 b) := by
  induction a with
  | nil => intro o; rfl
  | cons e es ih =>
    intro o
    cases e <;> cases o <;> simp [stmtOpenAfter, ih]

theorem stmtOpenAfter_closing (l : List String) : ∀ o : Bool,
    stmtOpenAfter o (l.map WorkerEvent.closeBuffer ++ [WorkerEvent.commit]) = some o := by
  induction l with
  | nil => intro o; rfl
  | cons a t ih => intro o; simpa [stmtOpenAfter] using ih o

theorem filterMap_prepared_closing (l : List String) :
    (l.map WorkerEvent.closeBuffer).filterMap WorkerEvent.prepared = [] := by
  induction l with
  | nil => rfl
  | cons a t ih => simp [List.filterMap_cons, WorkerEvent.prepared]

theorem StartWorker.handle_ok (tm : TaskManager) (workerId : Nat) (prepareOk : String → Bool)
    (hok : ∀ sql, prepareOk sql = true) (st : WorkerState) (chunk : DataChunk) :
    ∃ st1 suffix, StartWorker.handle tm workerId prepareOk st chunk = Run.done st1 ∧
      st1.events = st.events ++ suffix ∧
      suffix.filterMap WorkerEvent.prepared = [chunk.GetPrepareSQL.1] ∧
      stmtOpenAfter false suffix = some false := by
  unfold StartWorker.handle
  simp only [hok, Bool.not_true, Bool.false_eq_true, if_false]
  refine ⟨_,
    (if st.query ≠ chunk.GetPrepareSQL.1 then
        (if st.stmt then [WorkerEvent.closeStmt] else [])
          ++ [WorkerEvent.prepare chunk.GetPrepareSQL.1]
      else [WorkerEvent.prepare st.query])
    ++ (if chunk.Table.GetUnescapedFullName ∉ st.bufferChunk then
          [WorkerEvent.newChunkBuffer tm.DestinationDir
            (if chunk.IsSingleChunk then chunk.Table.GetUnescapedFullName ++ ".sql"
             else chunk.Table.GetUnescapedFullName ++ "-thread" ++ toString workerId ++ ".sql")]
        else [])
    ++ (if !tm.SkipUseDatabase then [WorkerEvent.writeUse chunk.Table.GetSchema] else [])
    ++ [WorkerEvent.flush chunk.Table.GetUnescapedFullName, WorkerEvent.parse chunk,
        WorkerEvent.closeStmt], rfl, ?_, ?_, ?_⟩
  · by_cases hq : st.query = chunk.GetPrepareSQL.1 <;>
    by_cases h2 : chunk.Table.GetUnescapedFullName ∈ st.bufferChunk <;>
    by_cases h3 : tm.SkipUseDatabase = true <;>
    simp [hq, h2, h3, List.append_assoc]
  · by_cases hq : st.query = chunk.GetPrepareSQL.1 <;>
    by_cases h1 : st.stmt = true <;>
    by_cases h2 : chunk.Table.GetUnescapedFullName ∈ st.bufferChunk <;>
    by_cases h3 : tm.SkipUseDatabase = true <;>
    simp [hq, h1, h2, h3, List.filterMap_append, List.filterMap_cons, WorkerEvent.prepared]
  · by_cases hq : st.query = chunk.GetPrepareSQL.1 <;>
    by_cases h1 : st.stmt = true <;>
    by_cases h2 : chunk.Table.GetUnescapedFullName ∈ st.bufferChunk <;>
    by_cases h3 : tm.SkipUseDatabase = true <;>
    simp [hq, h1, h2, h3, stmtOpenAfter]

theorem StartWorker.prepared_all (workerId : Nat) (prepareOk : String → Bool)
    (hok : ∀ sql, prepareOk sql = true) : ∀ (chunks : List DataChunk) (tm : TaskManager)
      (st : WorkerState) (fuel : Nat),
    tm.ChunksChannel = chunks → chunks.length < fuel →
    stmtOpenAfter false st.events = some false →
    ∃ tm1 st1, TaskManager.StartWorker workerId prepareOk true fuel tm st = Run.done (tm1, st1) ∧
      st1.events.filterMap WorkerEvent.prepared
        = st.events.filterMap WorkerEvent.prepared ++ chunks.map (fun c => c.GetPrepareSQL.1) ∧
      stmtOpenAfter false st1.events = some false := by
  intro chunks
  induction chunks with
  | nil =>
    intro tm st fuel hch hf hopen
    obtain ⟨n, rfl⟩ : ∃ n, fuel = n + 1 := ⟨fuel - 1, by simp at hf; omega⟩
    refine ⟨{ tm with Queue := wrapInt64 (tm.Queue - 1) },
      { st with events := st.events ++ st.bufferChunk.map WorkerEvent.closeBuffer
                            ++ [WorkerEvent.commit] }, ?_, ?_, ?_⟩
    · simp [TaskManager.StartWorker, StartWorker.receive, TaskManager.receive, hch]
    · simp [List.filterMap_append, WorkerEvent.prepared, filterMap_prepared_closing]
    · show stmtOpenAfter false
        (st.events ++ st.bufferChunk.map WorkerEvent.closeBuffer ++ [WorkerEvent.commit])
          = some false
      rw [List.append_assoc, stmtOpenAfter_append, hopen]
      exact stmtOpenAfter_closing _ false
  | cons c rest ih =>
    intro tm st fuel hch hf hopen
    obtain ⟨n, rfl⟩ : ∃ n, fuel = n + 1 := ⟨fuel - 1, by simp at hf; omega⟩
    obtain ⟨st1, suffix, hh, hev, hp, hso⟩ := StartWorker.handle_ok
      { tm with ChunksChannel := rest, Queue := wrapInt64 (tm.Queue - 1) }
      workerId prepareOk hok st c
    have hopen1 : stmtOpenAfter false st1.events = some false := by
      rw [hev, stmtOpenAfter_append, hopen]
      exact hso
    obtain ⟨tm2, st2, hrun, hp2, ho2⟩ := ih
      { tm with ChunksChannel := rest, Queue := wrapInt64 (tm.Queue - 1) } st1 n rfl
      (by simp at hf; omega) hopen1
    refine ⟨tm2, st2, ?_, ?_, ho2⟩
    · simp only [TaskManager.StartWorker, StartWorker.receive, TaskManager.receive, hch]
      rw [hh]
      exact hrun
    · rw [hp2, hev, List.filterMap_append, hp]
      simp

/-- C19 (amended): a worker that consumes the plans of the channel calls
`Prepare` once for every plan, with that plan's rendered SQL text, whether or
not the text is that of the previous plan: the texts prepared, in order, are
the rendered texts of the plans, in order; and no statement is prepared
before the one prepared earlier has been closed. -/
theorem StartWorker_prepares_every_plan (tm : TaskManager) (workerId : Nat)
    (prepareOk : String → Bool) (fuel : Nat)
    (hok : ∀ sql, prepareOk sql = true) (hfuel : tm.ChunksChannel.length < fuel) :
    ∃ tm1 st1,
      TaskManager.StartWorker workerId prepareOk true fuel tm WorkerState.init
        = Run.done (tm1, st1) ∧
      st1.events.filterMap WorkerEvent.prepared
        = tm.ChunksChannel.map (fun c => c.GetPrepareSQL.1) ∧
      stmtOpenAfter false st1.events = some false := by
  obtain ⟨tm1, st1, hrun, hp, ho⟩ :=
    StartWorker.prepared_all workerId prepareOk hok tm.ChunksChannel tm WorkerState.init fuel
      rfl hfuel rfl
  exact ⟨tm1, st1, hrun, by simpa [WorkerState.init] using hp, ho⟩

/-- C19 (amended), on two range plans of table `db.t`. -/
theorem StartWorker_prepares_every_plan_witness :
    ∃ tm1 st1,
      TaskManager.StartWorker 0 (fun _ => true) true 3
          (exampleManager [exampleRange 0 0 4, exampleRange 1 5 7]) WorkerState.init
        = Run.done (tm1, st1) ∧
      st1.events.filterMap WorkerEvent.prepared
        = [exampleRange 0 0 4, exampleRange 1 5 7].map (fun c => c.GetPrepareSQL.1) ∧
      stmtOpenAfter false st1.events = some false :=
  StartWorker_prepares_every_plan (exampleManager [exampleRange 0 0 4, exampleRange 1 5 7]) 0
    (fun _ => true) 3 (fun _ => rfl) (by decide)

/-- C19 fails as stated: two consecutive range plans of table `db.t` render
the same SQL text, and the worker prepares that text twice, the second time
without a change of text; its events for the second plan are `Prepare`,
`USE`, flush, parse and the closing of the statement. -/
theorem StartWorker_prepares_same_text_twice :
    (exampleRange 0 0 4).GetPrepareSQL.1 = (exampleRange 1 5 7).GetPrepareSQL.1 ∧
    (match TaskManager.StartWorker 0 (fun _ => true) true 3
        (exampleManager [exampleRange 0 0 4, exampleRange 1 5 7]) WorkerState.init with
      | .done r => r.2.events
      | _ => [])
      = [WorkerEvent.prepare
            "SELECT /*!40001 SQL_NO_CACHE */ * FROM `db`.`t` WHERE id BETWEEN ? AND ? ORDER BY id",
         WorkerEvent.newChunkBuffer "" "db.t-thread0.sql",
         WorkerEvent.writeUse "`db`",
         WorkerEvent.flush "db.t",
         WorkerEvent.parse (exampleRange 0 0 4),
         WorkerEvent.closeStmt,
         WorkerEvent.prepare
            "SELECT /*!40001 SQL_NO_CACHE */ * FROM `db`.`t` WHERE id BETWEEN ? AND ? ORDER BY id",
         WorkerEvent.writeUse "`db`",
         WorkerEvent.flush "db.t",
         WorkerEvent.parse (exampleRange 1 5 7),
         WorkerEvent.closeStmt,
         WorkerEvent.closeBuffer "db.t",
         WorkerEvent.commit] := by
  refine ⟨by decide, by decide⟩

/-! ## Properties of the planner: rows per plan -/

theorem filter_le_getElem (l : List Int) (hl : l.Pairwise (· < ·)) (i : Nat)
    (hi : i < l.length) :
    l.filter (fun k => decide (k ≤ l[i])) = l.take (i + 1) := by
  have hsplit : l.filter (fun k => decide (k ≤ l[i]))
      = (l.take (i + 1)).filter (fun k => decide (k ≤ l[i]))
        ++ (l.drop (i + 1)).filter (fun k => decide (k ≤ l[i])) := by
    rw [← List.filter_append, List.take_append_drop]
  rw [hsplit]
  have h1 : (l.take (i + 1)).filter (fun k => decide (k ≤ l[i])) = l.take (i + 1) := by
    apply List.filter_eq_self.mpr
    intro a ha
    obtain ⟨j, hj, rfl⟩ := List.getElem_of_mem ha
    rw [List.getElem_take]
    rw [List.length_take] at hj
    have hji : j ≤ i := by omega
    rcases Nat.lt_or_eq_of_le hji with hlt | heq
    · have := List.pairwise_iff_getElem.mp hl j i (by omega) hi hlt
      simpa using le_of_lt this
    · subst heq; simp
  have h2 : (l.drop (i + 1)).filter (fun k => decide (k ≤ l[i])) = [] := by
    apply List.filter_eq_nil_iff.mpr
    intro a ha
    obtain ⟨j, hj, rfl⟩ := List.getElem_of_mem ha
    rw [List.getElem_drop]
    rw [List.length_drop] at hj
    have := List.pairwise_iff_getElem.mp hl i (i + 1 + j) hi (by omega) (by omega)
    simpa using this
  rw [h1, h2, List.append_nil]

theorem filter_ge_getElem (l : List Int) (hl : l.Pairwise (· < ·)) (i : Nat)
    (hi : i < l.length) :
    l.filter (fun k => decide (l[i] ≤ k)) = l.drop i := by
  have hsplit : l.filter (fun k => decide (l[i] ≤ k))
      = (l.take i).filter (fun k => decide (l[i] ≤ k))
        ++ (l.drop i).filter (fun k => decide (l[i] ≤ k)) := by
    rw [← List.filter_append, List.take_append_drop]
  rw [hsplit]
  have h1 : (l.take i).filter (fun k => decide (l[i] ≤ k)) = [] := by
    apply List.filter_eq_nil_iff.mpr
    intro a ha
    obtain ⟨j, hj, rfl⟩ := List.getElem_of_mem ha
    rw [List.getElem_take]
    rw [List.length_take] at hj
    have := List.pairwise_iff_getElem.mp hl j i (by omega) hi (by omega)
    simpa using this
  have h2 : (l.drop i).filter (fun k => decide (l[i] ≤ k)) = l.drop i := by
    apply List.filter_eq_self.mpr
    intro a ha
    obtain ⟨j, hj, rfl⟩ := List.getElem_of_mem ha
    rw [List.getElem_drop]
    rw [List.length_drop] at hj
    rcases Nat.eq_zero_or_pos j with h0 | hpos
    · subst h0; simp
    · have := List.pairwise_iff_getElem.mp hl i (i + j) hi (by omega) (by omega)
      simpa using le_of_lt this
  rw [h1, h2, List.nil_append]

theorem keysFrom_filter_ge (keys : List Int) (x v : Int) (hxv : x ≤ v) :
    keysFrom keys v = (keysFrom keys x).filter (fun k => decide (v ≤ k)) := by
  unfold keysFrom
  rw [List.filter_filter]
  apply List.filter_congr
  intro a _
  by_cases hva : v ≤ a
  · have : x ≤ a := le_trans hxv hva
    simp [hva, this]
  · simp [hva]

/-- A successful boundary probe with offset `c` leaves exactly `c` keys fewer
from the returned key on. -/
theorem keysFrom_get_length (keys : List Int) (x v : Int) (c : Nat)
    (hnd : keys.Nodup) (h : (keysFrom keys x)[c]? = some v) :
    (keysFrom keys v).length + c = (keysFrom keys x).length := by
  obtain ⟨hlt, hv⟩ := List.getElem?_eq_some_iff.mp h
  have hpw := keysFrom_pairwise keys x hnd
  have hxv : x ≤ v := by
    have hm : (keysFrom keys x)[c] ∈ keysFrom keys x := List.getElem_mem _
    rw [hv] at hm
    exact ((mem_keysFrom keys x v).mp hm).2
  rw [keysFrom_filter_ge keys x v hxv, ← hv, filter_ge_getElem _ hpw c hlt, List.length_drop]
  omega

theorem length_filter_perm (keys : List Int) (P : Int → Bool) :
    (keys.filter P).length = ((keys.insertionSort (· ≤ ·)).filter P).length :=
  (((List.perm_insertionSort (· ≤ ·) keys).filter P).length_eq).symm

/-- The keys from the cursor `x` up to the key a probe with offset `c` returns
number `c + 1`. -/
theorem rows_from_cursor (keys : List Int) (x v : Int) (c : Nat)
    (hnd : keys.Nodup) (h : (keysFrom keys x)[c]? = some v) :
    (keys.filter (fun k => decide (x ≤ k) && decide (k ≤ v))).length = c + 1 := by
  obtain ⟨hlt, hv⟩ := List.getElem?_eq_some_iff.mp h
  have hpw := keysFrom_pairwise keys x hnd
  rw [length_filter_perm]
  have hfl : (keys.insertionSort (· ≤ ·)).filter (fun k => decide (x ≤ k) && decide (k ≤ v))
      = (keysFrom keys x).filter (fun k => decide (k ≤ v)) := by
    unfold keysFrom
    rw [List.filter_filter]
    apply List.filter_congr
    intro a _
    exact Bool.and_comm _ _
  rw [hfl, ← hv, filter_le_getElem _ hpw c hlt, List.length_take]
  omega

theorem length_filter_above (x v : Int) (hxv : x ≤ v) : ∀ (l : List Int), l.Nodup →
    (l.filter (fun k => decide (x ≤ k) && decide (k ≤ v))).length
      = (l.filter (fun k => decide (x + 1 ≤ k) && decide (k ≤ v))).length
        + (if x ∈ l then 1 else 0) := by
  intro l
  induction l with
  | nil => intro _; simp
  | cons a t ih =>
    intro hn
    obtain ⟨hat, hnt⟩ := List.nodup_cons.mp hn
    have iht := ih hnt
    by_cases hax : a = x
    · subst hax
      have h1 : (decide (a ≤ a) && decide (a ≤ v)) = true := by simp [hxv]
      have h2 : (decide (a + 1 ≤ a) && decide (a ≤ v)) = false := by simp
      simp only [List.filter_cons, h1, h2, if_true, List.length_cons, List.mem_cons, true_or]
      simp only [hat, if_false] at iht
      simp only [Bool.false_eq_true, if_false]
      omega
    · have hmem : (x ∈ a :: t) ↔ x ∈ t := by
        constructor
        · intro h
          rcases List.mem_cons.mp h with h | h
          · exact absurd h.symm hax
          · exact h
        · exact fun h => List.mem_cons_of_mem _ h
      have hsame : (decide (x ≤ a) && decide (a ≤ v)) = (decide (x + 1 ≤ a) && decide (a ≤ v)) := by
        have : x ≤ a ↔ x + 1 ≤ a := by omega
        simp [this]
      simp only [List.filter_cons, hsame, hmem]
      by_cases hc : (decide (x + 1 ≤ a) && decide (a ≤ v)) = true
      · simp only [hc, if_true, List.length_cons]; omega
      · simp only [hc, if_false]; exact iht

/-- The keys above a cursor `x` that is itself a key, up to the key a probe
with offset `c` returns, number `c`. -/
theorem rows_above_cursor (keys : List Int) (x v : Int) (c : Nat)
    (hnd : keys.Nodup) (hx : x ∈ keys) (h : (keysFrom keys x)[c]? = some v) :
    (keys.filter (fun k => decide (x + 1 ≤ k) && decide (k ≤ v))).length = c := by
  have hxv : x ≤ v := by
    obtain ⟨hlt, hv⟩ := List.getElem?_eq_some_iff.mp h
    have hm : (keysFrom keys x)[c] ∈ keysFrom keys x := List.getElem_mem _
    rw [hv] at hm
    exact ((mem_keysFrom keys x v).mp hm).2
  have h1 := rows_from_cursor keys x v c hnd h
  have h2 := length_filter_above x v hxv keys hnd
  simp only [hx, if_true] at h2
  omega

/-! ## Properties of the planner: number of plans and termination -/

theorem wrapInt64_succ_cases (v : Int) (h0 : 0 ≤ v) (h1 : v < 2 ^ 63) :
    wrapInt64 (v + 1) = v + 1 ∨ v = 2 ^ 63 - 1 := by
  by_cases h : v < 2 ^ 63 - 1
  · exact Or.inl (wrapInt64_succ v h0 h)
  · exact Or.inr (by omega)

theorem ceil_succ (m c : Nat) (hc : 1 ≤ c) :
    (m + c - 1) / c + 1 = (m + c + c - 1) / c := by
  have h : m + c + c - 1 = (m + c - 1) + c := by omega
  rw [h, Nat.add_div_right _ (by omega)]

theorem one_le_ceil (m c : Nat) (hm : 1 ≤ m) (hc : 1 ≤ c) : 1 ≤ (m + c - 1) / c := by
  have h : c ≤ m + c - 1 := by omega
  calc 1 = c / c := (Nat.div_self (by omega)).symm
    _ ≤ (m + c - 1) / c := Nat.div_le_div_right h

/-- The ranged loop from a cursor that is a key of the table: it returns,
every range plan it sends selects exactly `C` rows and has `Min ≤ Max`, a tail
plan can only come last, and the plans number at most the keys from the
cursor on divided by `C`, rounded up. -/
theorem Task.loop_tableDB_rows (keys : List Int) (hnd : keys.Nodup)
    (hr : ∀ k ∈ keys, 0 ≤ k ∧ k < 2 ^ 63) (C : Nat) (hC : 1 ≤ C) :
    ∀ (fuel : Nat) (t : Task) (l : Locals),
      t.ChunkSize = C → l.stopLoop = false → t.chunkMax ∈ keys →
      (t.chunkMin = t.chunkMax + 1 ∨ t.chunkMax = 2 ^ 63 - 1) →
      (keysFrom keys t.chunkMax).length < fuel →
      ∃ (ranges tl : List DataChunk) (t1 : Task),
        Task.loop (tableDB keys) fuel t l = some t1 ∧
        t1.TaskManager.ChunksChannel = t.TaskManager.ChunksChannel ++ (ranges ++ tl) ∧
        (ranges ++ tl).length ≤ ((keysFrom keys t.chunkMax).length + C - 1) / C ∧
        (∀ p ∈ ranges, p.IsSingleChunk = false ∧ p.IsLastChunk = false ∧ p.Min ≤ p.Max ∧
          rowsSelected keys p = C) ∧
        (tl = [] ∨ ∃ q, tl = [q] ∧ q.IsLastChunk = true) := by
  intro fuel
  induction fuel with
  | zero => intro t l _ _ _ _ hf; omega
  | succ n ih =>
    intro t l hsize hstop hx hmin hf
    have hpos : 1 ≤ (keysFrom keys t.chunkMax).length :=
      List.length_pos_of_mem ((mem_keysFrom keys t.chunkMax t.chunkMax).mpr ⟨hx, le_refl _⟩)
    rw [Task.loop_succ _ _ _ _ hstop]
    cases hq : (keysFrom keys t.chunkMax)[C]? with
    | some v =>
      obtain ⟨hvk, hxv, _⟩ := keysFrom_get keys t.chunkMax v C hC hnd hq
      have hv := hr v hvk
      have hlen := keysFrom_get_length keys t.chunkMax v C hnd hq
      have hminx : t.chunkMin = t.chunkMax + 1 := by
        rcases hmin with h | h
        · exact h
        · omega
      have hbody : t.loopBody (tableDB keys) l
          = (({ t with chunkMax := v } : Task).AddChunk (NewDataChunk { t with chunkMax := v }),
             { l with chunkMax := v }) := by
        simp [Task.loopBody, Task.GetChunkSqlQuery, tableDB, hsize, hq]
      rw [hbody]
      obtain ⟨ranges, tl, t1, hrun, hch, hcount, hranges, htl⟩ :=
        ih (({ t with chunkMax := v } : Task).AddChunk (NewDataChunk { t with chunkMax := v }))
          { l with chunkMax := v } (by simpa [Task.AddChunk] using hsize) (by simpa using hstop)
          (by simpa [Task.AddChunk] using hvk)
          (by
            rcases wrapInt64_succ_cases v hv.1 hv.2 with h | h
            · exact Or.inl (by simp [Task.AddChunk, h])
            · exact Or.inr (by simp [Task.AddChunk, h]))
          (by simp only [Task.AddChunk]; omega)
      refine ⟨NewDataChunk { t with chunkMax := v } :: ranges, tl, t1, hrun, ?_, ?_, ?_, htl⟩
      · rw [hch]
        simp [Task.AddChunk, TaskManager.AddChunk]
      · have hc2 : (ranges ++ tl).length ≤ ((keysFrom keys v).length + C - 1) / C := by
          simpa [Task.AddChunk] using hcount
        have hstep : ((keysFrom keys v).length + C - 1) / C + 1
            = ((keysFrom keys t.chunkMax).length + C - 1) / C := by
          rw [ceil_succ (keysFrom keys v).length C hC, hlen]
        simp only [List.cons_append, List.length_cons]
        omega
      · intro p hp
        rcases List.mem_cons.mp hp with rfl | hp
        · refine ⟨rfl, rfl, ?_, ?_⟩
          · simp only [NewDataChunk]; omega
          · have hrows := rows_above_cursor keys t.chunkMax v C hnd hx hq
            simp only [rowsSelected, DataChunk.selects, NewDataChunk, Bool.false_eq_true,
              if_false, hminx]
            exact hrows
        · exact hranges p hp
    | none =>
      have hone := one_le_ceil (keysFrom keys t.chunkMax).length C hpos hC
      cases hlast : (keysFrom keys t.chunkMin).head? with
      | some v =>
        have hbody : t.loopBody (tableDB keys) l
            = (t.AddChunk (NewDataLastChunk t), { l with chunkMin := v, stopLoop := true }) := by
          simp [Task.loopBody, Task.GetChunkSqlQuery, Task.GetLastChunkSqlQuery, tableDB, hsize,
            hq, hlast]
        rw [hbody, Task.loop_stop _ _ _ _ rfl]
        refine ⟨[], [NewDataLastChunk t], _, rfl, ?_, by simpa using hone, by simp,
          Or.inr ⟨_, rfl, rfl⟩⟩
        simp [Task.AddChunk, TaskManager.AddChunk]
      | none =>
        have hbody : t.loopBody (tableDB keys) l = (t, { l with stopLoop := true }) := by
          simp [Task.loopBody, Task.GetChunkSqlQuery, Task.GetLastChunkSqlQuery, tableDB, hsize,
            hq, hlast]
        rw [hbody, Task.loop_stop _ _ _ _ rfl]
        exact ⟨[], [], t, rfl, by simp, by simp, by simp, Or.inl rfl⟩

/-- The ranged loop on a table whose probes are made with offset 0: once a
key lies at or above the cursor the loop never stops. -/
theorem Task.loop_zero_chunk (keys : List Int) : ∀ (fuel : Nat) (t : Task) (l : Locals),
    t.ChunkSize = 0 → l.stopLoop = false → (∃ k ∈ keys, t.chunkMax ≤ k) →
    Task.loop (tableDB keys) fuel t l = none := by
  intro fuel
  induction fuel with
  | zero =>
    intro t l _ hs _
    unfold Task.loop
    simp [hs]
  | succ n ih =>
    intro t l hsize hstop hex
    obtain ⟨k, hk, hxk⟩ := hex
    have hlen : 0 < (keysFrom keys t.chunkMax).length :=
      List.length_pos_of_mem ((mem_keysFrom keys t.chunkMax k).mpr ⟨hk, hxk⟩)
    have hq : (keysFrom keys t.chunkMax)[0]? = some ((keysFrom keys t.chunkMax)[0]) :=
      List.getElem?_eq_getElem hlen
    have hm := (mem_keysFrom keys t.chunkMax _).mp
      (List.getElem_mem (l := keysFrom keys t.chunkMax) hlen)
    rw [Task.loop_succ _ _ _ _ hstop]
    have hbody : t.loopBody (tableDB keys) l
        = (({ t with chunkMax := (keysFrom keys t.chunkMax)[0] } : Task).AddChunk
            (NewDataChunk { t with chunkMax := (keysFrom keys t.chunkMax)[0] }),
           { l with chunkMax := (keysFrom keys t.chunkMax)[0] }) := by
      simp [Task.loopBody, Task.GetChunkSqlQuery, tableDB, hsize, hq]
    rw [hbody]
    apply ih
    · simpa [Task.AddChunk] using hsize
    · simpa using hstop
    · exact ⟨_, hm.1, by simp [Task.AddChunk]⟩

/-- The ranged loop from its start, cursor at 0: it returns, the first range
plan selects `C + 1` rows and every later one `C`, every range plan has
`Min ≤ Max`, a tail plan can only come last, and the plans number at most the
keys divided by `C`, rounded up. -/
theorem Task.loop_tableDB_fresh (keys : List Int) (hnd : keys.Nodup)
    (hr : ∀ k ∈ keys, 0 ≤ k ∧ k < 2 ^ 63) (C : Nat) (hC : 1 ≤ C)
    (fuel : Nat) (t : Task) (l : Locals)
    (hsize : t.ChunkSize = C) (hstop : l.stopLoop = false)
    (hmax : t.chunkMax = 0) (hmin : t.chunkMin = 0) (hf : keys.length < fuel) :
    ∃ (ranges tl : List DataChunk) (t1 : Task),
      Task.loop (tableDB keys) fuel t l = some t1 ∧
      t1.TaskManager.ChunksChannel = t.TaskManager.ChunksChannel ++ (ranges ++ tl) ∧
      (ranges ++ tl).length ≤ (keys.length + C - 1) / C ∧
      (∀ p ∈ ranges, p.IsSingleChunk = false ∧ p.IsLastChunk = false ∧ p.Min ≤ p.Max) ∧
      (tl = [] ∨ ∃ q, tl = [q] ∧ q.IsLastChunk = true) ∧
      (∀ p ∈ ranges.head?, rowsSelected keys p = C + 1) ∧
      (∀ p ∈ ranges.tail, rowsSelected keys p = C) := by
  obtain ⟨n, rfl⟩ : ∃ n, fuel = n + 1 := ⟨fuel - 1, by omega⟩
  have hall : (keysFrom keys 0).length ≤ keys.length := by
    have h1 : (keysFrom keys 0).length ≤ (keys.insertionSort (· ≤ ·)).length :=
      List.length_filter_le _ _
    rw [List.length_insertionSort] at h1
    exact h1
  rw [Task.loop_succ _ _ _ _ hstop]
  cases hq : (keysFrom keys 0)[C]? with
  | some v =>
    obtain ⟨hvk, hxv, _⟩ := keysFrom_get keys 0 v C hC hnd hq
    have hv := hr v hvk
    have hlen := keysFrom_get_length keys 0 v C hnd hq
    have hbody : t.loopBody (tableDB keys) l
        = (({ t with chunkMax := v } : Task).AddChunk (NewDataChunk { t with chunkMax := v }),
           { l with chunkMax := v }) := by
      simp [Task.loopBody, Task.GetChunkSqlQuery, tableDB, hsize, hmax, hq]
    rw [hbody]
    obtain ⟨ranges, tl, t1, hrun, hch, hcount, hranges, htl⟩ :=
      Task.loop_tableDB_rows keys hnd hr C hC n
        (({ t with chunkMax := v } : Task).AddChunk (NewDataChunk { t with chunkMax := v }))
        { l with chunkMax := v } (by simpa [Task.AddChunk] using hsize) (by simpa using hstop)
        (by simpa [Task.AddChunk] using hvk)
        (by
          rcases wrapInt64_succ_cases v hv.1 hv.2 with h | h
          · exact Or.inl (by simp [Task.AddChunk, h])
          · exact Or.inr (by simp [Task.AddChunk, h]))
        (by simp only [Task.AddChunk]; omega)
    refine ⟨NewDataChunk { t with chunkMax := v } :: ranges, tl, t1, hrun, ?_, ?_, ?_, htl,
      ?_, ?_⟩
    · rw [hch]
      simp [Task.AddChunk, TaskManager.AddChunk]
    · have hc2 : (ranges ++ tl).length ≤ ((keysFrom keys v).length + C - 1) / C := by
        simpa [Task.AddChunk] using hcount
      have hstep : ((keysFrom keys v).length + C - 1) / C + 1
          = ((keysFrom keys 0).length + C - 1) / C := by
        rw [ceil_succ (keysFrom keys v).length C hC, hlen]
      have hmono : ((keysFrom keys 0).length + C - 1) / C ≤ (keys.length + C - 1) / C :=
        Nat.div_le_div_right (by omega)
      simp only [List.cons_append, List.length_cons]
      omega
    · intro p hp
      rcases List.mem_cons.mp hp with rfl | hp
      · refine ⟨rfl, rfl, ?_⟩
        simp only [NewDataChunk]; omega
      · exact ⟨(hranges p hp).1, (hranges p hp).2.1, (hranges p hp).2.2.1⟩
    · intro p hp
      simp only [List.head?_cons, Option.mem_def, Option.some.injEq] at hp
      subst hp
      have hrows := rows_from_cursor keys 0 v C hnd hq
      simp only [rowsSelected, DataChunk.selects, NewDataChunk, Bool.false_eq_true, if_false,
        hmin]
      exact hrows
    · intro p hp
      exact (hranges p (by simpa using hp)).2.2.2
  | none =>
    cases hlast : (keysFrom keys 0).head? with
    | some v =>
      have hbody : t.loopBody (tableDB keys) l
          = (t.AddChunk (NewDataLastChunk t), { l with chunkMin := v, stopLoop := true }) := by
        simp [Task.loopBody, Task.GetChunkSqlQuery, Task.GetLastChunkSqlQuery, tableDB, hsize,
          hmax, hmin, hq, hlast]
      rw [hbody, Task.loop_stop _ _ _ _ rfl]
      have hne : 1 ≤ keys.length := by
        have hm : v ∈ keysFrom keys 0 := List.mem_of_mem_head? hlast
        have := List.length_pos_of_mem ((mem_keysFrom keys 0 v).mp hm).1
        omega
      have hone := one_le_ceil keys.length C hne hC
      refine ⟨[], [NewDataLastChunk t], _, rfl, ?_, by simpa using hone, by simp,
        Or.inr ⟨_, rfl, rfl⟩, by simp, by simp⟩
      simp [Task.AddChunk, TaskManager.AddChunk]
    | none =>
      have hbody : t.loopBody (tableDB keys) l = (t, { l with stopLoop := true }) := by
        simp [Task.loopBody, Task.GetChunkSqlQuery, Task.GetLastChunkSqlQuery, tableDB, hsize,
          hmax, hmin, hq, hlast]
      rw [hbody, Task.loop_stop _ _ _ _ rfl]
      exact ⟨[], [], t, rfl, by simp, by simp, by simp, Or.inl rfl, by simp, by simp⟩

/-- The shape of a ranged run of `CreateChunks` on a table with distinct
non-negative keys: what `Task.loop_tableDB_fresh` says, for the plans sent. -/
theorem CreateChunks_tableDB_rows (keys : List Int) (t : Task) (fuel : Nat)
    (hkey : t.Table.GetPrimaryOrUniqueKey.1 ≠ "") (hC : 1 ≤ t.ChunkSize)
    (hnd : keys.Nodup) (hr : ∀ k ∈ keys, 0 ≤ k ∧ k < 2 ^ 63)
    (hfuel : keys.length < fuel) :
    ∃ (ranges tl : List DataChunk),
      t.emitted (tableDB keys) fuel = some (ranges ++ tl) ∧
      (ranges ++ tl).length ≤ (keys.length + t.ChunkSize - 1) / t.ChunkSize ∧
      (∀ p ∈ ranges, p.IsSingleChunk = false ∧ p.IsLastChunk = false ∧ p.Min ≤ p.Max) ∧
      (tl = [] ∨ ∃ q, tl = [q] ∧ q.IsLastChunk = true) ∧
      (∀ p ∈ ranges.head?, rowsSelected keys p = t.ChunkSize + 1) ∧
      (∀ p ∈ ranges.tail, rowsSelected keys p = t.ChunkSize) := by
  obtain ⟨ranges, tl, t1, hrun, hch, hrest⟩ :=
    Task.loop_tableDB_fresh keys hnd hr t.ChunkSize hC fuel
      { t with TotalChunks := 0, chunkMax := 0, chunkMin := 0,
               Table := t.Table.GetPrimaryOrUniqueKey.2 }
      { chunkMax := 0, chunkMin := 0, stopLoop := false } rfl rfl rfl rfl hfuel
  refine ⟨ranges, tl, ?_, hrest⟩
  simp only [Task.emitted, Task.CreateChunks, hkey, if_false, hrun, hch]
  simp

/-- C21 (amended): for a table whose chunk-key values are distinct integers in
`[0, 2^63)`, the dense keys 1..N among them, and a chunk size `C` of at least
1, `CreateChunks` returns range plans followed by at most a tail plan; the
first range plan selects exactly `C + 1` rows of the table and every later
range plan exactly `C`. -/
theorem CreateChunks_rows_per_range (keys : List Int) (t : Task) (fuel : Nat)
    (hkey : t.Table.GetPrimaryOrUniqueKey.1 ≠ "") (hC : 1 ≤ t.ChunkSize)
    (hnd : keys.Nodup) (hr : ∀ k ∈ keys, 0 ≤ k ∧ k < 2 ^ 63)
    (hfuel : keys.length < fuel) :
    ∃ (ranges tl : List DataChunk),
      t.emitted (tableDB keys) fuel = some (ranges ++ tl) ∧
      (∀ p ∈ ranges, p.IsLastChunk = false) ∧
      (∀ q ∈ tl, q.IsLastChunk = true) ∧
      (∀ p ∈ ranges.head?, rowsSelected keys p = t.ChunkSize + 1) ∧
      (∀ p ∈ ranges.tail, rowsSelected keys p = t.ChunkSize) := by
  obtain ⟨ranges, tl, hrun, _, hranges, htl, hhead, htail⟩ :=
    CreateChunks_tableDB_rows keys t fuel hkey hC hnd hr hfuel
  refine ⟨ranges, tl, hrun, fun p hp => (hranges p hp).2.1, ?_, hhead, htail⟩
  intro q hq
  rcases htl with rfl | ⟨q2, rfl, hlast⟩
  · exact absurd hq (List.not_mem_nil _)
  · rw [List.mem_singleton.mp hq]; exact hlast

/-- C21 (amended), on the dense keys 1..10 with chunk size 3. -/
theorem CreateChunks_rows_per_range_witness :
    ∃ (ranges tl : List DataChunk),
      (exampleTask 3).emitted (tableDB (denseKeys 10)) 11 = some (ranges ++ tl) ∧
      (∀ p ∈ ranges, p.IsLastChunk = false) ∧
      (∀ q ∈ tl, q.IsLastChunk = true) ∧
      (∀ p ∈ ranges.head?, rowsSelected (denseKeys 10) p = (exampleTask 3).ChunkSize + 1) ∧
      (∀ p ∈ ranges.tail, rowsSelected (denseKeys 10) p = (exampleTask 3).ChunkSize) :=
  CreateChunks_rows_per_range (denseKeys 10) (exampleTask 3) 11
    (by decide) (by decide) (by decide) (by decide) (by decide)

/-- C21 fails as stated: on the dense keys 1..10 with chunk size 3 the range
plans are [0, 4], [5, 7] and [8, 10] and the first selects 4 rows, not 3; on
the dense keys 1..100 with chunk size 25 the three range plans select 26, 25
and 25 rows and the tail plan the remaining 24. -/
theorem CreateChunks_first_range_one_more :
    ((exampleTask 3).emitted (tableDB (denseKeys 10)) 11).map
        (fun plans => plans.map
          (fun p => (p.Min, p.Max, p.IsLastChunk, rowsSelected (denseKeys 10) p)))
      = some [(0, 4, false, 4), (5, 7, false, 3), (8, 10, false, 3)] ∧
    ((exampleTask 25).emitted (tableDB (denseKeys 100)) 101).map
        (fun plans => plans.map
          (fun p => (p.Min, p.Max, p.IsLastChunk, rowsSelected (denseKeys 100) p)))
      = some [(0, 26, false, 26), (27, 51, false, 25), (52, 76, false, 25),
              (77, 0, true, 24)] := by
  refine ⟨by decide, by decide⟩

/-- C22: for a table with `n` distinct chunk-key values in `[0, 2^63)` and a
chunk size `C` of at least 1, the ranged run of `CreateChunks` returns, the
plans it sent number at most `n / C` rounded up (`(n + C - 1) / C`), every
range plan has `Min ≤ Max`, and a tail plan, if any, is the last plan; with
`C = 0` on a table with at least one key at or above 0 the run never
returns, whatever the bound on its iterations. -/
theorem CreateChunks_terminates_bounded (t : Task)
    (hkey : t.Table.GetPrimaryOrUniqueKey.1 ≠ "") :
    (∀ (keys : List Int) (fuel : Nat), keys.Nodup → (∀ k ∈ keys, 0 ≤ k ∧ k < 2 ^ 63) →
      1 ≤ t.ChunkSize → keys.length < fuel →
      ∃ (ranges tl : List DataChunk),
        t.emitted (tableDB keys) fuel = some (ranges ++ tl) ∧
        (ranges ++ tl).length ≤ (keys.length + t.ChunkSize - 1) / t.ChunkSize ∧
        (∀ p ∈ ranges, p.IsSingleChunk = false ∧ p.IsLastChunk = false ∧ p.Min ≤ p.Max) ∧
        (tl = [] ∨ ∃ q, tl = [q] ∧ q.IsLastChunk = true)) ∧
    (∀ (keys : List Int), (∃ k ∈ keys, 0 ≤ k) → t.ChunkSize = 0 →
      ∀ fuel : Nat, t.CreateChunks (tableDB keys) fuel = Run.outOfFuel) := by
  constructor
  · intro keys fuel hnd hr hC hfuel
    obtain ⟨ranges, tl, hrun, hcount, hranges, htl, _, _⟩ :=
      CreateChunks_tableDB_rows keys t fuel hkey hC hnd hr hfuel
    exact ⟨ranges, tl, hrun, hcount, hranges, htl⟩
  · intro keys hex hzero fuel
    have hloop : Task.loop (tableDB keys) fuel
        { t with TotalChunks := 0, chunkMax := 0, chunkMin := 0,
                 Table := t.Table.GetPrimaryOrUniqueKey.2 }
        { chunkMax := 0, chunkMin := 0, stopLoop := false } = none :=
      Task.loop_zero_chunk keys fuel _ _ hzero rfl hex
    simp only [Task.CreateChunks, hkey, if_false, hloop]

/-- C22, on the keys 7, 3, 9223372036854775807, 5, 1 with chunk size 2 (two
range plans and a tail plan, at most 5 / 2 rounded up), and on the same keys
with chunk size 0. -/
theorem CreateChunks_terminates_bounded_witness :
    (∃ (ranges tl : List DataChunk),
      (exampleTask 2).emitted (tableDB [7, 3, 9223372036854775807, 5, 1]) 6
        = some (ranges ++ tl) ∧
      (ranges ++ tl).length ≤ 3 ∧
      (∀ p ∈ ranges, p.IsSingleChunk = false ∧ p.IsLastChunk = false ∧ p.Min ≤ p.Max) ∧
      (tl = [] ∨ ∃ q, tl = [q] ∧ q.IsLastChunk = true)) ∧
    (∀ fuel : Nat,
      (exampleTask 0).CreateChunks (tableDB [7, 3, 9223372036854775807, 5, 1]) fuel
        = Run.outOfFuel) :=
  ⟨(CreateChunks_terminates_bounded (exampleTask 2) (by decide)).1
      [7, 3, 9223372036854775807, 5, 1] 6 (by decide) (by decide) (by decide) (by decide),
   (CreateChunks_terminates_bounded (exampleTask 0) (by decide)).2
      [7, 3, 9223372036854775807, 5, 1] ⟨7, by decide, by decide⟩ rfl⟩

end GoDump
